import Mathlib

/-!
# PaperFuse — verification of the paper-analysis pipeline

Shallow embedding, in Lean 4, of the core of the PaperFuse repository
(rule prefilter, LaTeX text extractor, response reconciler, completion
retry loop, evidence cache and analysis-depth ledger), together with
theorems settling the specification claims about those components.

JavaScript strings are modelled as `List Char` (called `Str` below);
the definitions mirror the TypeScript sources function by function.
-/

set_option maxHeartbeats 2000000
set_option maxRecDepth 100000

/-- JavaScript strings, modelled as lists of characters. -/
abbrev Str : Type := List Char

/-- The `{` character, by code point. -/
def lbrace : Char := Char.ofNat 123

/-- The `}` character, by code point. -/
def rbrace : Char := Char.ofNat 125

/-- The `[` character. -/
def lbrack : Char := Char.ofNat 91

/-- The `]` character. -/
def rbrack : Char := Char.ofNat 93

/-- The double-quote character. -/
def dquote : Char := Char.ofNat 34

/-- The backslash character. -/
def bslash : Char := Char.ofNat 92

/-- JavaScript whitespace for `trim` and the regex class `\s`
(space, tab, newline, carriage return, form feed, vertical tab). -/
def isWsChar (c : Char) : Bool :=
  c = ' ' || c = '\t' || c = '\n' || c = '\r' || c = Char.ofNat 12 || c = Char.ofNat 11

/-- ASCII digit test, the regex class `\d`. -/
def isDigitChar (c : Char) : Bool :=
  '0' ≤ c && c ≤ '9'

/-- ASCII letter test. -/
def isAsciiLetter (c : Char) : Bool :=
  ('a' ≤ c && c ≤ 'z') || ('A' ≤ c && c ≤ 'Z')

/-- The regex word class `\w` = `[A-Za-z0-9_]`. -/
def isWordChar (c : Char) : Bool :=
  isAsciiLetter c || isDigitChar c || c = '_'

/-- Case folding of one character (`String.prototype.toLowerCase`,
ASCII range, which is all the sources rely on). -/
def lowerChar (c : Char) : Char :=
  if 'A' ≤ c && c ≤ 'Z' then Char.ofNat (c.toNat + 32) else c

/-- `toLowerCase` on a whole string. -/
def lowerStr (s : Str) : Str := s.map lowerChar

/-- Does the first string lead (start) the second? -/
def strLeads : Str → Str → Bool
  | [], _ => true
  | _ :: _, [] => false
  | a :: as, b :: bs => a = b && strLeads as bs

/-- Does `needle` occur at offset `i` of `hay` (case-sensitive)? -/
def subAt (needle hay : Str) (i : Nat) : Bool :=
  strLeads needle (hay.drop i)

/-- `String.prototype.includes`: does `needle` occur anywhere in `hay`? -/
def hasSub (needle hay : Str) : Bool :=
  (List.range (hay.length + 1)).any (fun i => subAt needle hay i)

/-- `String.prototype.trim`. -/
def jsTrim (s : Str) : Str :=
  (s.dropWhile isWsChar).reverse.dropWhile isWsChar |>.reverse

/-- `String.prototype.endsWith` for a single character. -/
def endsWithChar (s : Str) (c : Char) : Bool :=
  match s.getLast? with
  | some d => d = c
  | none => false

/-- Character at index `i`, with an out-of-range default that matches
nothing the matchers below look for. -/
def charAt (s : Str) (i : Nat) : Char :=
  s.getD i (Char.ofNat 0)

/-- Count of occurrences of one character (the brace/bracket counting in
`repairTruncatedJSON` via `str.match(/x/g).length`). -/
def countChar (c : Char) (s : Str) : Nat :=
  (s.filter (fun d => d = c)).length

/-- `parseInt` on a nonempty all-digit string. -/
def digitsToNat (s : Str) : Nat :=
  s.foldl (fun acc c => acc * 10 + (c.toNat - '0'.toNat)) 0

/-!
## Rule Prefilter — `src/lib/filters/rule-filter.ts`
-/

/-- The `TITLE_BLACKLIST` constant of `rule-filter.ts`. -/
def TITLE_BLACKLIST : List Str :=
  [ "workshop".toList, "note".toList, "preliminary".toList, "draft".toList,
    "commentary".toList, "opinion".toList, "position paper".toList,
    "tutorial".toList, "survey".toList, "review".toList,
    "perspective".toList, "thesis".toList ]

/-- The `TOP_VENUE_KEYWORDS` constant of `rule-filter.ts`. -/
def TOP_VENUE_KEYWORDS : List Str :=
  [ "neurips".toList, "neural information processing systems".toList,
    "icml".toList, "international conference on machine learning".toList,
    "iclr".toList, "international conference on learning representations".toList,
    "acl".toList, "association for computational linguistics".toList,
    "emnlp".toList, "aaai".toList, "ijcai".toList, "kdd".toList,
    "sigmod".toList, "vldb".toList, "icde".toList ]

/-- The fields of an `ArxivPaper` that `applyRuleFilter` reads. -/
structure ArxivPaperMeta where
  id : Str
  title : Str
  authors : List Str
  summary : Str
deriving DecidableEq, Repr

/-- `FilterResult` of `rule-filter.ts` (`score` is the optional field). -/
structure FilterResult where
  passed : Bool
  reason : Str
  score : Option Nat
deriving DecidableEq, Repr

/-- The version-suffix match `paper.id.match(/v(\d+)$/)`: the id must end
in the letter `v` followed by at least one digit; the captured group is the
maximal trailing digit run. -/
def versionSuffix (id : Str) : Option Nat :=
  let rev := id.reverse
  let digits := rev.takeWhile isDigitChar
  if digits.isEmpty then none
  else if charAt rev digits.length = 'v' then some (digitsToNat digits.reverse)
  else none

/-- `applyRuleFilter` of `rule-filter.ts`, rule for rule in source order. -/
def applyRuleFilter (paper : ArxivPaperMeta) : FilterResult :=
  -- Rule 1: author count
  if paper.authors.length = 0 then
    ⟨false, "No authors listed".toList, none⟩
  else
    -- Rule 2: title blacklist
    let titleLower := lowerStr paper.title
    match TITLE_BLACKLIST.find? (fun w => hasSub w titleLower) with
    | some w => ⟨false, "Title contains blacklist word: ".toList ++ w, none⟩
    | none =>
      -- Rule 3: title length
      if paper.title.length < 15 then
        ⟨false, "Title too short".toList, none⟩
      -- Rule 4: summary length
      else if paper.summary.length < 200 then
        ⟨false, "Summary too short".toList, none⟩
      else
        -- Rule 5: venue boost
        let combined := lowerStr (paper.title ++ " ".toList ++ paper.summary)
        let baseScore := if TOP_VENUE_KEYWORDS.any (fun v => hasSub v combined) then 7 else 5
        -- Rule 6: retraction markers
        let summaryLower := lowerStr paper.summary
        if hasSub "retracted".toList summaryLower ||
           hasSub "withdrawn".toList summaryLower ||
           hasSub "this paper has been removed".toList summaryLower then
          ⟨false, "Paper retracted or withdrawn".toList, none⟩
        -- Rule 7: non-research content
        else if hasSub "we are hiring".toList summaryLower ||
                hasSub "job opening".toList summaryLower ||
                hasSub "call for papers".toList summaryLower then
          ⟨false, "Non-research content".toList, none⟩
        else
          -- Rule 8: version check
          match versionSuffix paper.id with
          | some v =>
            if v > 5 then ⟨false, "Too many versions".toList, none⟩
            else ⟨true, "Passed rule-based filter".toList, some baseScore⟩
          | none => ⟨true, "Passed rule-based filter".toList, some baseScore⟩

/-- Scenario A metadata: title `A Study of Foo` (14 characters), an
abstract of 210 characters, one author, no version suffix. -/
def scenarioAPaper : ArxivPaperMeta :=
  ⟨"2501.12345".toList, "A Study of Foo".toList, ["X".toList],
    List.replicate 210 'x'⟩

/-- The same metadata with a 17-character title. -/
def scenarioAPaperLongTitle : ArxivPaperMeta :=
  ⟨"2501.12345".toList, "A Study of Foobar".toList, ["X".toList],
    List.replicate 210 'x'⟩

/-- **C4 (counterexample).** On the Scenario A metadata the Rule
Prefilter does not pass with base score 5: the title `A Study of Foo` is
only 14 characters, below the 15-character minimum, so the filter rejects
with reason `Title too short`. -/
theorem c4_counterexample :
    applyRuleFilter scenarioAPaper =
      ⟨false, "Title too short".toList, none⟩ := by
  decide

/-- **C4 (amended).** On the Scenario A metadata the Rule Prefilter
rejects with reason `Title too short` (the 14-character title violates
the 15-character minimum); with a title of at least 15 characters and the
same abstract and authors it passes with base score 5. -/
theorem c4_amended :
    applyRuleFilter scenarioAPaper = ⟨false, "Title too short".toList, none⟩ ∧
    applyRuleFilter scenarioAPaperLongTitle =
      ⟨true, "Passed rule-based filter".toList, some 5⟩ := by
  constructor
  · decide
  · decide

/-- A paper with no authors and a short abstract, for C9. -/
def c9Paper : ArxivPaperMeta :=
  ⟨"2501.00001".toList, "Quantum Entanglement Widgets".toList, [], "short".toList⟩

/-- **C9 (counterexample).** A paper whose abstract is shorter than 200
characters but which has zero authors is rejected with reason
`No authors listed`, not `Summary too short`: the author-count rule fires
first. -/
theorem c9_counterexample :
    applyRuleFilter c9Paper = ⟨false, "No authors listed".toList, none⟩ ∧
    c9Paper.summary.length < 200 ∧
    (applyRuleFilter c9Paper).reason ≠ "Summary too short".toList := by
  refine ⟨by decide, by decide, by decide⟩

/-- **C9 (amended).** For every paper whose abstract is shorter than 200
characters, *provided the earlier rules pass* (at least one author, no
blacklisted word in the title, title at least 15 characters), the Rule
Prefilter rejects with reason `Summary too short`. -/
theorem c9_amended (paper : ArxivPaperMeta)
    (hauth : paper.authors.length ≠ 0)
    (hblack : ∀ w ∈ TITLE_BLACKLIST, ¬ hasSub w (lowerStr paper.title))
    (htitle : 15 ≤ paper.title.length)
    (hsum : paper.summary.length < 200) :
    applyRuleFilter paper = ⟨false, "Summary too short".toList, none⟩ := by
  have hfind : TITLE_BLACKLIST.find? (fun w => hasSub w (lowerStr paper.title)) = none := by
    rw [List.find?_eq_none]
    intro w hw
    simpa using hblack w hw
  unfold applyRuleFilter
  rw [if_neg hauth]
  simp only [hfind]
  rw [if_neg (by omega), if_pos hsum]

/-- **C9 (witness).** The amended theorem applies to a concrete paper
with a valid title and a 100-character abstract. -/
theorem c9_amended_witness :
    applyRuleFilter
      ⟨"2501.00002".toList, "Congruent Lattice Methods".toList, ["Y".toList],
        List.replicate 100 'y'⟩ =
      ⟨false, "Summary too short".toList, none⟩ :=
  c9_amended _ (by decide) (by decide) (by decide) (by decide)

/-!
## JavaScript numbers and JSON values

`JsNum` models a JavaScript number as needed by the reconciler:
`nan`, signed infinity, or an exact rational (we use exact rationals for
double-precision values; no claim depends on float rounding).
-/

/-- A JavaScript number: NaN, ±Infinity, or a finite value. -/
inductive JsNum where
  | nan : JsNum
  | inf : Bool → JsNum
  | fin : ℚ → JsNum
deriving DecidableEq, Repr

/-- `Math.max` on two numbers: NaN-propagating. -/
def jsMax : JsNum → JsNum → JsNum
  | .nan, _ => .nan
  | _, .nan => .nan
  | .inf true, _ => .inf true
  | _, .inf true => .inf true
  | .inf false, b => b
  | a, .inf false => a
  | .fin a, .fin b => .fin (max a b)

/-- `Math.min` on two numbers: NaN-propagating. -/
def jsMin : JsNum → JsNum → JsNum
  | .nan, _ => .nan
  | _, .nan => .nan
  | .inf false, _ => .inf false
  | _, .inf false => .inf false
  | .inf true, b => b
  | a, .inf true => a
  | .fin a, .fin b => .fin (min a b)

/-- The value a JSON document parses to. -/
inductive JsonValue where
  | jnull : JsonValue
  | jbool : Bool → JsonValue
  | jnum : ℚ → JsonValue
  | jstr : Str → JsonValue
  | jarr : List JsonValue → JsonValue
  | jobj : List (Str × JsonValue) → JsonValue

/-- Property access `obj[k]` on a parsed JSON value: `none` is JavaScript
`undefined`. With duplicate keys `JSON.parse` keeps the last one. -/
def getField (v : JsonValue) (k : Str) : Option JsonValue :=
  match v with
  | .jobj fields => (fields.reverse.find? (fun p => p.1 = k)).map (fun p => p.2)
  | _ => none

/-- JavaScript truthiness of a JSON-parsed value. -/
def jsTruthy : JsonValue → Bool
  | .jnull => false
  | .jbool b => b
  | .jnum q => !(q = 0)
  | .jstr s => !s.isEmpty
  | .jarr _ => true
  | .jobj _ => true

/-- Hexadecimal digit value (codepoints 48–57 are the digits, 97–102
lower-case a–f, 65–70 upper-case A–F). -/
def hexVal (c : Char) : Option Nat :=
  let n := c.toNat
  if 48 ≤ n ∧ n ≤ 57 then some (n - 48)
  else if 97 ≤ n ∧ n ≤ 102 then some (n - 87)
  else if 65 ≤ n ∧ n ≤ 70 then some (n - 55)
  else none

/-- Digits of a given base to a natural number. -/
def digitsToNatBase (base : Nat) (vals : List Nat) : Nat :=
  vals.foldl (fun acc v => acc * base + v) 0

/-- `ToNumber` applied to a string (ECMAScript `StringNumericLiteral`):
trimmed; empty means 0; optionally signed decimal (with fraction and
exponent) or `Infinity`; unsigned `0x`/`0o`/`0b` integer forms; anything
else is NaN. Values are exact rationals. -/
def strToNumber (s : Str) : JsNum :=
  let t := jsTrim s
  if t.isEmpty then .fin 0
  else
    -- non-decimal integer forms (no sign allowed)
    let nonDec : Option JsNum :=
      match t with
      | '0' :: m :: rest =>
        let base : Option Nat :=
          if m = 'x' || m = 'X' then some 16
          else if m = 'o' || m = 'O' then some 8
          else if m = 'b' || m = 'B' then some 2
          else none
        match base with
        | some b =>
          let vals := rest.map hexVal
          if rest.isEmpty then some .nan
          else if vals.all (fun v => match v with | some d => d < b | none => false) then
            some (.fin ((digitsToNatBase b (vals.map (fun v => v.getD 0)) : Nat) : ℚ))
          else some .nan
        | none => none
      | _ => none
    match nonDec with
    | some r => r
    | none =>
      -- signed decimal or Infinity
      let (sign, u) : ℚ × Str :=
        match t with
        | '-' :: rest => (-1, rest)
        | '+' :: rest => (1, rest)
        | _ => (1, t)
      if u = "Infinity".toList then .inf (sign = 1)
      else
        let ip := u.takeWhile isDigitChar
        let u1 := u.drop ip.length
        let (fp, u2) : Str × Str :=
          match u1 with
          | '.' :: rest => (rest.takeWhile isDigitChar, rest.drop (rest.takeWhile isDigitChar).length)
          | _ => ([], u1)
        if ip.isEmpty && fp.isEmpty then .nan
        else
          let mant : ℚ := (digitsToNat ip : ℚ) + (digitsToNat fp : ℚ) / ((10 : ℚ) ^ fp.length)
          match u2 with
          | [] => .fin (sign * mant)
          | e :: rest =>
            if e = 'e' || e = 'E' then
              let (esign, ed) : ℤ × Str :=
                match rest with
                | '-' :: r2 => (-1, r2)
                | '+' :: r2 => (1, r2)
                | _ => (1, rest)
              if ed.isEmpty || !(ed.all isDigitChar) then .nan
              else .fin (sign * mant * (10 : ℚ) ^ (esign * (digitsToNat ed : ℤ)))
            else .nan

/-- `ToNumber` of one array element as rendered by `Array.prototype.join`
(`null` renders empty, booleans render `true`/`false` which are not
numeric, numbers round-trip). -/
def elemToNumber : JsonValue → JsNum
  | .jnull => .fin 0
  | .jbool _ => .nan
  | .jnum q => .fin q
  | .jstr s => strToNumber s
  | .jobj _ => .nan
  | .jarr [] => .fin 0
  | .jarr [y] => elemToNumber y
  | .jarr (_ :: _ :: _) => .nan

/-- JavaScript `ToNumber` of a JSON-parsed value (plain objects give
`[object Object]` hence NaN; an array joins its elements with commas, so
two or more elements are never numeric). -/
def jsToNumber : JsonValue → JsNum
  | .jnull => .fin 0
  | .jbool b => .fin (if b then 1 else 0)
  | .jnum q => .fin q
  | .jstr s => strToNumber s
  | .jobj _ => .nan
  | .jarr [] => .fin 0
  | .jarr [y] => elemToNumber y
  | .jarr (_ :: _ :: _) => .nan

/-!
## `JSON.parse` — strict JSON grammar, fuel-based recursive descent
-/

/-- JSON insignificant whitespace. -/
def isJsonWs (c : Char) : Bool :=
  c = ' ' || c = '\t' || c = '\n' || c = '\r'

/-- Parse the body of a JSON string (after the opening quote), handling
the escape sequences of the JSON grammar. -/
def parseJsonString : Str → Option (Str × Str)
  | [] => none
  | c :: rest =>
    if c = dquote then some ([], rest)
    else if c = bslash then
      match rest with
      | [] => none
      | e :: rest2 =>
        let simpleEsc : Option Char :=
          if e = dquote then some dquote
          else if e = bslash then some bslash
          else if e = '/' then some '/'
          else if e = 'b' then some (Char.ofNat 8)
          else if e = 'f' then some (Char.ofNat 12)
          else if e = 'n' then some '\n'
          else if e = 'r' then some '\r'
          else if e = 't' then some '\t'
          else none
        match simpleEsc with
        | some ec =>
          match parseJsonString rest2 with
          | some (s, r) => some (ec :: s, r)
          | none => none
        | none =>
          if e = 'u' then
            match rest2 with
            | h1 :: h2 :: h3 :: h4 :: rest3 =>
              match hexVal h1, hexVal h2, hexVal h3, hexVal h4 with
              | some a, some b, some c2, some d =>
                match parseJsonString rest3 with
                | some (s, r) => some (Char.ofNat (((a * 16 + b) * 16 + c2) * 16 + d) :: s, r)
                | none => none
              | _, _, _, _ => none
            | _ => none
          else none
    else if c.toNat < 32 then none
    else
      match parseJsonString rest with
      | some (s, r) => some (c :: s, r)
      | none => none

/-- Parse a JSON number (`-?(0|[1-9]\d*)(\.\d+)?([eE][+-]?\d+)?`),
returning its exact rational value. -/
def parseJsonNumber (l : Str) : Option (ℚ × Str) :=
  let (sign, u) : ℚ × Str :=
    match l with
    | '-' :: rest => (-1, rest)
    | _ => (1, l)
  let ip := u.takeWhile isDigitChar
  if ip.isEmpty then none
  else if ip.length > 1 && charAt ip 0 = '0' then none
  else
    let u1 := u.drop ip.length
    let (fracOk, fp, u2) : Bool × Str × Str :=
      match u1 with
      | '.' :: rest =>
        let f := rest.takeWhile isDigitChar
        (!f.isEmpty, f, rest.drop f.length)
      | _ => (true, [], u1)
    if !fracOk then none
    else
      let mant : ℚ := sign * ((digitsToNat ip : ℚ) + (digitsToNat fp : ℚ) / ((10 : ℚ) ^ fp.length))
      match u2 with
      | e :: rest =>
        if e = 'e' || e = 'E' then
          let (esign, ed0) : ℤ × Str :=
            match rest with
            | '-' :: r2 => (-1, r2)
            | '+' :: r2 => (1, r2)
            | _ => (1, rest)
          let ed := ed0.takeWhile isDigitChar
          if ed.isEmpty then none
          else some (mant * (10 : ℚ) ^ (esign * (digitsToNat ed : ℤ)), ed0.drop ed.length)
        else some (mant, u2)
      | [] => some (mant, [])

/-- Parsing modes of the recursive-descent JSON reader: one value, the
item list of an array (after `[`), or the member list of an object
(after `{`); list modes carry whether a first element was already read. -/
inductive JMode where
  | value : JMode
  | arrItems : Bool → JMode
  | objMembers : Bool → JMode

/-- The recursive core of `JSON.parse`, structurally recursive on fuel
(one unit of fuel per grammar step; the caller supplies enough for any
input of a given length). In list modes the returned value is the
`.jarr`/`.jobj` of the remaining elements. -/
def parseJsonCore : Nat → JMode → Str → Option (JsonValue × Str)
  | 0, _, _ => none
  | fuel + 1, .value, l =>
    let l1 := l.dropWhile isJsonWs
    match l1 with
    | [] => none
    | c :: rest =>
      if c = lbrace then parseJsonCore fuel (.objMembers true) rest
      else if c = lbrack then parseJsonCore fuel (.arrItems true) rest
      else if c = dquote then
        match parseJsonString rest with
        | some (s, r) => some (.jstr s, r)
        | none => none
      else if c = 't' then
        if strLeads "rue".toList rest then some (.jbool true, rest.drop 3) else none
      else if c = 'f' then
        if strLeads "alse".toList rest then some (.jbool false, rest.drop 4) else none
      else if c = 'n' then
        if strLeads "ull".toList rest then some (.jnull, rest.drop 3) else none
      else if c = '-' || isDigitChar c then
        match parseJsonNumber l1 with
        | some (q, r) => some (.jnum q, r)
        | none => none
      else none
  | fuel + 1, .arrItems first, l =>
    let l1 := l.dropWhile isJsonWs
    match l1 with
    | [] => none
    | c :: rest =>
      if c = rbrack && first then some (.jarr [], rest)
      else
        match parseJsonCore fuel .value l1 with
        | some (v, r1) =>
          let r2 := r1.dropWhile isJsonWs
          match r2 with
          | d :: r3 =>
            if d = ',' then
              match parseJsonCore fuel (.arrItems false) r3 with
              | some (.jarr vs, r4) => some (.jarr (v :: vs), r4)
              | _ => none
            else if d = rbrack then some (.jarr [v], r3)
            else none
          | [] => none
        | none => none
  | fuel + 1, .objMembers first, l =>
    let l1 := l.dropWhile isJsonWs
    match l1 with
    | [] => none
    | c :: rest =>
      if c = rbrace && first then some (.jobj [], rest)
      else if c = dquote then
        match parseJsonString rest with
        | some (key, r1) =>
          let r2 := r1.dropWhile isJsonWs
          match r2 with
          | colon :: r3 =>
            if colon = ':' then
              match parseJsonCore fuel .value r3 with
              | some (v, r4) =>
                let r5 := r4.dropWhile isJsonWs
                match r5 with
                | d :: r6 =>
                  if d = ',' then
                    match parseJsonCore fuel (.objMembers false) r6 with
                    | some (.jobj ms, r7) => some (.jobj ((key, v) :: ms), r7)
                    | _ => none
                  else if d = rbrace then some (.jobj [(key, v)], r6)
                  else none
                | [] => none
              | none => none
            else none
          | [] => none
        | none => none
      else none

/-- `JSON.parse`: a single value with only whitespace around it;
`none` models the thrown `SyntaxError`. -/
def jsonParse (s : Str) : Option JsonValue :=
  match parseJsonCore (2 * s.length + 4) .value s with
  | some (v, rest) => if (rest.dropWhile isJsonWs).isEmpty then some v else none
  | none => none

/-!
## Response Reconciler — `src/app/api/analyze/route.ts`
-/

/-- One non-overlapping global-replace step driven by a matcher that, on a
match at the head of the suffix, returns the replacement and the rest of
the input after the match (which is always a proper suffix). -/
def scanReplAux (m : Str → Option (Str × Str)) : Nat → Str → Str
  | 0, l => l
  | _ + 1, [] => []
  | fuel + 1, c :: rest =>
    match m (c :: rest) with
    | some (repl, after) => repl ++ scanReplAux m fuel after
    | none => c :: scanReplAux m fuel rest

/-- Global regex replace, leftmost-first and non-overlapping. -/
def scanRepl (m : Str → Option (Str × Str)) (l : Str) : Str :=
  scanReplAux m (l.length + 1) l

/-- Matcher for `/,\s*([}\]])/g → '$1'`: a comma, whitespace, then a
closing brace or bracket, replaced by just the closer. -/
def commaCloserMatch (l : Str) : Option (Str × Str) :=
  match l with
  | c :: rest =>
    if c = ',' then
      let ws := rest.takeWhile isWsChar
      let r2 := rest.drop ws.length
      match r2 with
      | d :: r3 => if d = rbrace || d = rbrack then some ([d], r3) else none
      | [] => none
    else none
  | [] => none

/-- Matcher (anchored at the current offset, checked to end of input) for
`/"([^"]+)":\s*"([^"]*)$/`: returns the key and the unterminated value. -/
def incompleteKeyAt (l : Str) : Option (Str × Str) :=
  match l with
  | c :: rest =>
    if c = dquote then
      let key := rest.takeWhile (fun d => !(d = dquote))
      if key.isEmpty then none
      else
        match rest.drop key.length with
        | q2 :: r2 =>
          if q2 = dquote then
            match r2 with
            | colon :: r3 =>
              if colon = ':' then
                let ws := r3.takeWhile isWsChar
                match r3.drop ws.length with
                | q3 :: val =>
                  if q3 = dquote && val.all (fun d => !(d = dquote)) then
                    some (key, val)
                  else none
                | [] => none
              else none
            | [] => none
          else none
        | [] => none
    else none
  | [] => none

/-- Apply `/"([^"]+)":\s*"([^"]*)$/g → '"$1": "$2..."'` : find the
leftmost match (it necessarily extends to the end of the string) and
rewrite it, soft-closing the truncated value. -/
def incompleteKeyFixAux : Nat → Str → Str
  | 0, l => l
  | _ + 1, [] => []
  | fuel + 1, c :: rest =>
    match incompleteKeyAt (c :: rest) with
    | some (key, val) =>
      [dquote] ++ key ++ [dquote] ++ ": ".toList ++ [dquote] ++ val ++ "...".toList ++ [dquote]
    | none => c :: incompleteKeyFixAux fuel rest

/-- See `incompleteKeyFixAux`. -/
def incompleteKeyFix (l : Str) : Str :=
  incompleteKeyFixAux (l.length + 1) l

/-- `repairTruncatedJSON` of `analyze/route.ts`: count braces and
brackets over the trimmed input, append the missing `}` closers and then
the missing `]` closers, strip one trailing quote, drop commas before
closers, soft-close a truncated final string value. -/
def repairTruncatedJSON (jsonStr : Str) : Str :=
  let repaired := jsTrim jsonStr
  let openBraces := countChar lbrace repaired
  let closeBraces := countChar rbrace repaired
  let openBrackets := countChar lbrack repaired
  let closeBrackets := countChar rbrack repaired
  let r1 := repaired ++ List.replicate (openBraces - closeBraces) rbrace
  let r2 := r1 ++ List.replicate (openBrackets - closeBrackets) rbrack
  let r3 := if endsWithChar r2 dquote then r2.dropLast else r2
  let r4 := scanRepl commaCloserMatch r3
  incompleteKeyFix r4

/-- Hostname/protocol slice of a parsed URL. -/
structure UrlParts where
  protocol : Str
  hostname : Str

/-- Model of the WHATWG `new URL(link)` constructor, adequate for the
http(s) links `validateCodeLinks` inspects: a scheme followed by `:`,
then `//`, userinfo up to `@` dropped, hostname lowercased and cut at the
port separator; a URL without `//` parses with an empty hostname;
anything without a well-formed scheme throws (`none`). -/
def urlParse (s : Str) : Option UrlParts :=
  let scheme := s.takeWhile (fun c =>
    isAsciiLetter c || isDigitChar c || c = '+' || c = '-' || c = '.')
  if scheme.isEmpty || !isAsciiLetter (charAt s 0) then none
  else
    match s.drop scheme.length with
    | c :: rest =>
      if c = ':' then
        match rest with
        | s1 :: s2 :: r2 =>
          if s1 = '/' && s2 = '/' then
            let auth := r2.takeWhile (fun d => !(d = '/' || d = '?' || d = Char.ofNat 35))
            let hostPort := if auth.any (fun d => d = '@') then
                (auth.reverse.takeWhile (fun d => !(d = '@'))).reverse
              else auth
            let host := lowerStr (hostPort.takeWhile (fun d => !(d = ':')))
            if host.isEmpty then none
            else some ⟨lowerStr scheme ++ [':'], host⟩
          else some ⟨lowerStr scheme ++ [':'], []⟩
        | _ => some ⟨lowerStr scheme ++ [':'], []⟩
      else none
    | [] => none

/-- The `blockedDomains` constant of `validateCodeLinks`. -/
def blockedDomains : List Str :=
  [ "arxiv.org".toList, "arxiv.com".toList, "scholar.google.com".toList,
    "semanticscholar.org".toList, "aclanthology.org".toList,
    "openreview.net".toList, "pmlr.press".toList, "proceedings.mlr.press".toList ]

/-- The `blockedPatterns` constant of `validateCodeLinks`. -/
def blockedPatterns : List Str :=
  [ "/pdf/".toList, "/abs/".toList, "/pdf/".toList, "paper".toList,
    "proceedings".toList, "openreview".toList ]

/-- Is one candidate code link kept by `validateCodeLinks`? -/
def codeLinkKept (link : Str) : Bool :=
  match urlParse link with
  | none => false
  | some u =>
    if !(u.protocol = "http:".toList || u.protocol = "https:".toList) then false
    else if blockedDomains.any (fun d => hasSub d u.hostname) then false
    else if blockedPatterns.any (fun p => hasSub p (lowerStr link)) then false
    else true

/-- `validateCodeLinks` of `analyze/route.ts`: non-arrays give `[]`;
non-string entries are dropped; string entries are kept when they parse
as http(s) URLs outside the blocklists. -/
def validateCodeLinks (links : Option JsonValue) : List Str :=
  match links with
  | some (.jarr l) =>
    l.filterMap (fun v =>
      match v with
      | .jstr s => if codeLinkKept s then some s else none
      | _ => none)
  | _ => []

/-- The known tag set `['rl', 'llm', 'inference']`. -/
def validTagStrs : List Str :=
  ["rl".toList, "llm".toList, "inference".toList]

/-- The valid confidence values `['high', 'medium', 'low']`. -/
def validConfidenceStrs : List Str :=
  ["high".toList, "medium".toList, "low".toList]

/-- `a || b` on JavaScript values, where `none` is an absent property. -/
def jsOrElse (a : Option JsonValue) (b : JsonValue) : JsonValue :=
  match a with
  | some v => if jsTruthy v then v else b
  | none => b

/-- The `deepAnalysis` object assembled by `buildResult`. -/
structure DeepAnalysisObj where
  ai_summary : JsonValue
  key_insights : JsonValue
  engineering_notes : JsonValue
  code_links : List Str
  key_formulas : JsonValue
  algorithms : JsonValue
  flow_diagram : JsonValue

/-- The response object of the analyze endpoint. -/
structure AnalyzeResult where
  tags : List Str
  confidence : Str
  reasoning : JsonValue
  score : JsNum
  scoreReason : JsonValue
  deepAnalysis : Option DeepAnalysisObj

/-- The value fed to `Math.max(1, ...)` in `buildResult`:
`parsed.score || 5`, coerced to a number. -/
def buildResultScoreInput (parsed : JsonValue) : JsNum :=
  match getField parsed "score".toList with
  | some v => if jsTruthy v then jsToNumber v else .fin 5
  | none => .fin 5

/-- An array-valued field is kept, anything else becomes `null`
(`Array.isArray(x) ? x : null`). -/
def arrayOrNull (v : Option JsonValue) : JsonValue :=
  match v with
  | some (.jarr l) => .jarr l
  | _ => .jnull

/-- One entry of the tag filter
`parsed.tags.filter(t => ['rl','llm','inference'].includes(t))`:
only known tag strings survive. -/
def tagFilterEntry : JsonValue → Option Str
  | .jstr s => if decide (s ∈ validTagStrs) then some s else none
  | _ => none

/-- The tag list of `buildResult` before the fallback: the `tags` field
filtered against the known tag set when it is an array, else empty. -/
def buildResultRawTags (parsed : JsonValue) : List Str :=
  match getField parsed "tags".toList with
  | some (.jarr l) => l.filterMap tagFilterEntry
  | _ => []

/-- The validated tag list of `buildResult`, with the `['llm']` fallback. -/
def buildResultTags (parsed : JsonValue) : List Str :=
  if (buildResultRawTags parsed).isEmpty then ["llm".toList]
  else buildResultRawTags parsed

/-- The validated confidence of `buildResult`, defaulting to `medium`. -/
def buildResultConfidence (parsed : JsonValue) : Str :=
  match getField parsed "confidence".toList with
  | some (.jstr s) => if decide (s ∈ validConfidenceStrs) then s else "medium".toList
  | _ => "medium".toList

/-- The clamped score of `buildResult`:
`Math.min(10, Math.max(1, parsed.score || 5))`. -/
def buildResultScore (parsed : JsonValue) : JsNum :=
  jsMin (.fin 10) (jsMax (.fin 1) (buildResultScoreInput parsed))

/-- The deep-analysis payload of `buildResult` (built whenever
`parsed.deep_analysis || parsed.deepAnalysis` is a truthy object,
arrays included since `typeof [] === 'object'`). -/
def buildResultDeep (parsed : JsonValue) : Option DeepAnalysisObj :=
  let rawDeep := jsOrElse (getField parsed "deep_analysis".toList)
    (jsOrElse (getField parsed "deepAnalysis".toList) .jnull)
  match rawDeep with
  | .jobj _ | .jarr _ =>
    some
      { ai_summary := jsOrElse (getField rawDeep "ai_summary".toList) .jnull
        key_insights := arrayOrNull (getField rawDeep "key_insights".toList)
        engineering_notes := jsOrElse (getField rawDeep "engineering_notes".toList) .jnull
        code_links := validateCodeLinks (getField rawDeep "code_links".toList)
        key_formulas := arrayOrNull (getField rawDeep "key_formulas".toList)
        algorithms := arrayOrNull (getField rawDeep "algorithms".toList)
        flow_diagram := jsOrElse (getField rawDeep "flow_diagram".toList) .jnull }
  | _ => none

/-- `buildResult` of `analyze/route.ts`: tag filtering with the `llm`
fallback, confidence validation with the `medium` default, score clamping
via `Math.min(10, Math.max(1, parsed.score || 5))`, and assembly of the
deep-analysis payload. -/
def buildResult (parsed : JsonValue) : AnalyzeResult :=
  { tags := buildResultTags parsed
    confidence := buildResultConfidence parsed
    reasoning := jsOrElse (getField parsed "classification_reasoning".toList)
      (jsOrElse (getField parsed "reasoning".toList) (.jstr []))
    score := buildResultScore parsed
    scoreReason := jsOrElse (getField parsed "score_reasoning".toList)
      (jsOrElse (getField parsed "score_reason".toList) (.jstr []))
    deepAnalysis := buildResultDeep parsed }

/-- Leftmost application of an anchored matcher over all suffixes. -/
def scanFindAux (f : Str → Option α) : Nat → Str → Option α
  | 0, _ => none
  | _ + 1, [] => f []
  | fuel + 1, c :: rest =>
    match f (c :: rest) with
    | some a => some a
    | none => scanFindAux f fuel rest

/-- Leftmost application of an anchored matcher. -/
def scanFind (f : Str → Option α) (l : Str) : Option α :=
  scanFindAux f (l.length + 1) l

/-- Anchored matcher for `/"score"\s*:\s*(\d+)/`: the captured digits as
a number. -/
def scoreRegexAt (l : Str) : Option Nat :=
  if strLeads "\"score\"".toList l then
    let r1 := l.drop 7
    let r2 := r1.drop (r1.takeWhile isWsChar).length
    match r2 with
    | c :: r3 =>
      if c = ':' then
        let r4 := r3.drop (r3.takeWhile isWsChar).length
        let ds := r4.takeWhile isDigitChar
        if ds.isEmpty then none else some (digitsToNat ds)
      else none
    | [] => none
  else none

/-- Anchored matcher for `/"tags"\s*:\s*\[([^\]]*)\]/`: the raw text
between the brackets. -/
def tagsRegexAt (l : Str) : Option Str :=
  if strLeads "\"tags\"".toList l then
    let r1 := l.drop 6
    let r2 := r1.drop (r1.takeWhile isWsChar).length
    match r2 with
    | c :: r3 =>
      if c = ':' then
        let r4 := r3.drop (r3.takeWhile isWsChar).length
        match r4 with
        | b :: r5 =>
          if b = lbrack then
            let inner := r5.takeWhile (fun d => !(d = rbrack))
            match r5.drop inner.length with
            | e :: _ => if e = rbrack then some inner else none
            | [] => none
          else none
        | [] => none
      else none
    | [] => none
  else none

/-- Anchored matcher for `/"confidence"\s*:\s*"(\w+)"/`. -/
def confidenceRegexAt (l : Str) : Option Str :=
  if strLeads "\"confidence\"".toList l then
    let r1 := l.drop 12
    let r2 := r1.drop (r1.takeWhile isWsChar).length
    match r2 with
    | c :: r3 =>
      if c = ':' then
        let r4 := r3.drop (r3.takeWhile isWsChar).length
        match r4 with
        | q :: r5 =>
          if q = dquote then
            let w := r5.takeWhile isWordChar
            if w.isEmpty then none
            else
              match r5.drop w.length with
              | e :: _ => if e = dquote then some w else none
              | [] => none
          else none
        | [] => none
      else none
    | [] => none
  else none

/-- The score recovered by `extractPartialData`:
`Math.min(10, Math.max(1, parseInt(match[1])))`, else 5. -/
def extractPartialScore (fullText : Str) : JsNum :=
  match scanFind scoreRegexAt fullText with
  | some n => .fin (min 10 (max 1 (n : ℚ)))
  | none => .fin 5

/-- The tag candidates `extractPartialData` builds from the bracket body:
split on commas, trim, strip quotes, filter against the known tag set. -/
def partialTagCandidates (inner : Str) : List Str :=
  ((inner.splitOn ',').map (fun t => (jsTrim t).filter (fun c => !(c = dquote)))).filter
    (fun t => decide (t ∈ validTagStrs))

/-- The tags recovered by `extractPartialData`, with the `['llm']`
fallback. -/
def extractPartialTags (fullText : Str) : List Str :=
  match scanFind tagsRegexAt fullText with
  | some inner =>
    if (partialTagCandidates inner).isEmpty then ["llm".toList]
    else partialTagCandidates inner
  | none => ["llm".toList]

/-- The confidence recovered by `extractPartialData`, defaulting to
`low`. -/
def extractPartialConfidence (fullText : Str) : Str :=
  match scanFind confidenceRegexAt fullText with
  | some w => if decide (w ∈ validConfidenceStrs) then w else "low".toList
  | none => "low".toList

/-- `extractPartialData` of `analyze/route.ts`: regex extraction of just
the score, tags and confidence fields, marking the result degraded. -/
def extractPartialData (_jsonText fullText : Str) : AnalyzeResult :=
  { tags := extractPartialTags fullText
    confidence := extractPartialConfidence fullText
    reasoning := .jstr "JSON was truncated, extracted partial data".toList
    score := extractPartialScore fullText
    scoreReason := .jstr "JSON was truncated, using extracted score".toList
    deepAnalysis := none }

/-- First index of a character. -/
def firstIdxOfChar (s : Str) (c : Char) : Option Nat :=
  s.findIdx? (fun d => d = c)

/-- Last index of a character. -/
def lastIdxOfChar (s : Str) (c : Char) : Option Nat :=
  match s.reverse.findIdx? (fun d => d = c) with
  | some i => some (s.length - 1 - i)
  | none => none

/-- First index at or after `start` at which `needle` occurs. -/
def findSubFrom (needle hay : Str) (start : Nat) : Option Nat :=
  (List.range (hay.length + 1)).find? (fun i => start ≤ i && subAt needle hay i)

/-- The `/```json\s*([\s\S]*?)\s*```/` extraction: the first fenced block
opener, the first closing fence after it, and the trimmed text between
(the lazy capture differs from this span only by surrounding whitespace,
which the caller trims away). -/
def extractFencedJson (t : Str) : Option Str :=
  match findSubFrom "```json".toList t 0 with
  | none => none
  | some i =>
    match findSubFrom "```".toList t (i + 7) with
    | none => none
    | some j => some (jsTrim ((t.drop (i + 7)).take (j - (i + 7))))

/-- The JSON-candidate slice chosen by `parseAnalysisResponse`: a fenced
block if present, else the outermost `{...}` span, else the whole text. -/
def jsonCandidate (trimmedText : Str) : Str :=
  match extractFencedJson trimmedText with
  | some j => j
  | none =>
    match firstIdxOfChar trimmedText lbrace, lastIdxOfChar trimmedText rbrace with
    | some f, some l =>
      if l > f then (trimmedText.drop f).take (l + 1 - f) else trimmedText
    | _, _ => trimmedText

/-- `parseAnalysisResponse` of `analyze/route.ts`: direct parse, then
structural repair, then partial extraction. -/
def parseAnalysisResponse (text : Str) : AnalyzeResult :=
  let trimmedText := jsTrim text
  let jsonText := jsonCandidate trimmedText
  match jsonParse jsonText with
  | some parsed => buildResult parsed
  | none =>
    match jsonParse (repairTruncatedJSON jsonText) with
    | some parsed => buildResult parsed
    | none => extractPartialData jsonText trimmedText
/-- Scenario D completion output: valid JSON truncated by dropping the
two closers `]` and then the final brace. -/
def scenarioDOutput : Str := "\x7b\"score\": 8, \"tags\": [\"llm\"".toList

/-- **C3 (code bug).** On Scenario D the repair step appends the missing
closers in the wrong order — all `}` before all `]` — producing
`{"score": 8, "tags": ["llm"}]`, which `JSON.parse` rejects, whereas
appending `]}` as the specification states would parse; the final result
therefore comes from tier-3 partial extraction (confidence `low`), not
from a successful reparse. -/
theorem c3_code_bug :
    repairTruncatedJSON scenarioDOutput =
      "\x7b\"score\": 8, \"tags\": [\"llm\"\x7d]".toList ∧
    jsonParse (repairTruncatedJSON scenarioDOutput) = none ∧
    (jsonParse (scenarioDOutput ++ "]\x7d".toList)).isSome = true ∧
    parseAnalysisResponse scenarioDOutput =
      { tags := ["llm".toList]
        confidence := "low".toList
        reasoning := .jstr "JSON was truncated, extracted partial data".toList
        score := .fin 8
        scoreReason := .jstr "JSON was truncated, using extracted score".toList
        deepAnalysis := none } := by
  exact ⟨by decide, by rfl, by rfl, by rfl⟩

/-- A score clamped into the interval `[1, 10]`. -/
def scoreClamped (x : JsNum) : Prop :=
  ∃ q : ℚ, x = JsNum.fin q ∧ 1 ≤ q ∧ q ≤ 10

/-- The completion output `{"score": "x"}` used against C5. -/
def c5Output : Str := "\x7b\"score\": \"x\"\x7d".toList

/-- **C5 (counterexample).** The completion output `{"score": "x"}`
parses directly, but `Math.max(1, "x")` is NaN, so the reconciled score
is NaN — not a value clamped to `[1, 10]`. -/
theorem c5_counterexample :
    (parseAnalysisResponse c5Output).score = JsNum.nan ∧
    ¬ scoreClamped (parseAnalysisResponse c5Output).score := by
  have h : (parseAnalysisResponse c5Output).score = JsNum.nan := by rfl
  refine ⟨h, ?_⟩
  rw [h]
  rintro ⟨q, hq, -, -⟩
  exact JsNum.noConfusion hq

/-- Every tag the `buildResult` filter lets through is a known tag. -/
theorem tagFilterEntry_mem {v : JsonValue} {t : Str}
    (h : tagFilterEntry v = some t) : t ∈ validTagStrs := by
  cases v <;> simp only [tagFilterEntry] at h
  case jstr s =>
    by_cases hs : s ∈ validTagStrs
    · rw [if_pos (by simpa using hs)] at h
      cases h
      exact hs
    · rw [if_neg (by simpa using hs)] at h
      exact Option.noConfusion h
  all_goals exact Option.noConfusion h

/-- Every element of the raw `buildResult` tag list is a known tag. -/
theorem buildResultRawTags_mem (parsed : JsonValue) :
    ∀ t ∈ buildResultRawTags parsed, t ∈ validTagStrs := by
  intro t ht
  unfold buildResultRawTags at ht
  rcases hm : getField parsed "tags".toList with - | v
  · rw [hm] at ht; cases ht
  · rw [hm] at ht
    cases v with
    | jarr l =>
      rcases List.mem_filterMap.mp ht with ⟨x, -, hx⟩
      exact tagFilterEntry_mem hx
    | jnull => cases ht
    | jbool b => cases ht
    | jnum q => cases ht
    | jstr s => cases ht
    | jobj o => cases ht

/-- Clamping a non-NaN number lands in `[1, 10]`. -/
theorem clamp_scoreClamped (x : JsNum) (hx : x ≠ JsNum.nan) :
    scoreClamped (jsMin (.fin 10) (jsMax (.fin 1) x)) := by
  cases x with
  | nan => exact absurd rfl hx
  | inf b =>
    cases b with
    | true => exact ⟨10, rfl, by norm_num, le_refl 10⟩
    | false => exact ⟨min 10 1, rfl, by norm_num, by norm_num⟩
  | fin q =>
    exact ⟨min 10 (max 1 q), rfl,
      le_min (by norm_num) (le_max_left _ _), min_le_left _ _⟩

/-- Every candidate `extractPartialData` keeps is a known tag. -/
theorem partialTagCandidates_mem (inner : Str) :
    ∀ t ∈ partialTagCandidates inner, t ∈ validTagStrs := by
  intro t ht
  have := List.of_mem_filter ht
  simpa using this

/-- **C5 (amended).** Regardless of reconciliation path, the result has a
non-empty tag list drawn from the known tag set (defaulting to `llm`),
a confidence in `{high, medium, low}` with the documented defaults
(`medium` for `buildResult`, `low` for partial extraction), and — on the
`buildResult` paths — a score clamped to `[1, 10]` *whenever the parsed
score field is absent, falsy, or coerces to a non-NaN number* (a
non-numeric string or object score yields NaN instead); the
partial-extraction score is always clamped. -/
theorem c5_amended (parsed : JsonValue) (jt ft : Str) :
    ((buildResult parsed).tags ≠ [] ∧
      ∀ t ∈ (buildResult parsed).tags, t ∈ validTagStrs) ∧
    (buildResult parsed).confidence ∈ validConfidenceStrs ∧
    (getField parsed "confidence".toList = none →
      (buildResult parsed).confidence = "medium".toList) ∧
    (buildResultScoreInput parsed ≠ JsNum.nan →
      scoreClamped (buildResult parsed).score) ∧
    ((extractPartialData jt ft).tags ≠ [] ∧
      ∀ t ∈ (extractPartialData jt ft).tags, t ∈ validTagStrs) ∧
    (extractPartialData jt ft).confidence ∈ validConfidenceStrs ∧
    (scanFind confidenceRegexAt ft = none →
      (extractPartialData jt ft).confidence = "low".toList) ∧
    scoreClamped (extractPartialData jt ft).score := by
  refine ⟨⟨?_, ?_⟩, ?_, ?_, ?_, ⟨?_, ?_⟩, ?_, ?_, ?_⟩
  · -- buildResult tags are non-empty
    show buildResultTags parsed ≠ []
    unfold buildResultTags
    by_cases h : (buildResultRawTags parsed).isEmpty
    · rw [if_pos h]; exact List.cons_ne_nil _ _
    · rw [if_neg h]
      intro he
      rw [he] at h
      exact h rfl
  · -- buildResult tags are known tags
    intro t ht
    change t ∈ buildResultTags parsed at ht
    unfold buildResultTags at ht
    by_cases h : (buildResultRawTags parsed).isEmpty
    · rw [if_pos h] at ht
      rcases List.mem_singleton.mp ht with rfl
      simp [validTagStrs]
    · rw [if_neg h] at ht
      exact buildResultRawTags_mem parsed t ht
  · -- buildResult confidence is valid
    show buildResultConfidence parsed ∈ validConfidenceStrs
    unfold buildResultConfidence
    rcases hm : getField parsed "confidence".toList with - | v
    · simp [validConfidenceStrs]
    · cases v with
      | jstr s =>
        show (if decide (s ∈ validConfidenceStrs) = true then s
          else "medium".toList) ∈ validConfidenceStrs
        by_cases hs : s ∈ validConfidenceStrs
        · rw [if_pos (by simpa using hs)]; exact hs
        · rw [if_neg (by simpa using hs)]; simp [validConfidenceStrs]
      | jnull => simp [validConfidenceStrs]
      | jbool b => simp [validConfidenceStrs]
      | jnum q => simp [validConfidenceStrs]
      | jarr l => simp [validConfidenceStrs]
      | jobj o => simp [validConfidenceStrs]
  · -- buildResult confidence defaults to medium
    intro h
    show buildResultConfidence parsed = "medium".toList
    unfold buildResultConfidence
    rw [h]
  · -- buildResult score is clamped when the coerced input is not NaN
    intro h
    exact clamp_scoreClamped _ h
  · -- partial tags are non-empty
    show extractPartialTags ft ≠ []
    unfold extractPartialTags
    rcases scanFind tagsRegexAt ft with - | inner
    · exact List.cons_ne_nil _ _
    · show (if (partialTagCandidates inner).isEmpty = true then ["llm".toList]
        else partialTagCandidates inner) ≠ []
      by_cases h : (partialTagCandidates inner).isEmpty
      · rw [if_pos h]; exact List.cons_ne_nil _ _
      · rw [if_neg h]
        intro he
        rw [he] at h
        exact h rfl
  · -- partial tags are known tags
    intro t
    show t ∈ extractPartialTags ft → t ∈ validTagStrs
    unfold extractPartialTags
    rcases scanFind tagsRegexAt ft with - | inner
    · intro ht
      rcases List.mem_singleton.mp ht with rfl
      simp [validTagStrs]
    · show t ∈ (if (partialTagCandidates inner).isEmpty = true then ["llm".toList]
        else partialTagCandidates inner) → t ∈ validTagStrs
      intro ht
      by_cases h : (partialTagCandidates inner).isEmpty
      · rw [if_pos h] at ht
        rcases List.mem_singleton.mp ht with rfl
        simp [validTagStrs]
      · rw [if_neg h] at ht
        exact partialTagCandidates_mem inner t ht
  · -- partial confidence is valid
    show extractPartialConfidence ft ∈ validConfidenceStrs
    unfold extractPartialConfidence
    rcases scanFind confidenceRegexAt ft with - | w
    · simp [validConfidenceStrs]
    · show (if decide (w ∈ validConfidenceStrs) = true then w
        else "low".toList) ∈ validConfidenceStrs
      by_cases hw : w ∈ validConfidenceStrs
      · rw [if_pos (by simpa using hw)]; exact hw
      · rw [if_neg (by simpa using hw)]; simp [validConfidenceStrs]
  · -- partial confidence defaults to low
    intro h
    show extractPartialConfidence ft = "low".toList
    unfold extractPartialConfidence
    rw [h]
  · -- partial score is always clamped
    show scoreClamped (extractPartialScore ft)
    unfold extractPartialScore
    rcases scanFind scoreRegexAt ft with - | n
    · exact ⟨5, rfl, by norm_num, by norm_num⟩
    · exact ⟨min 10 (max 1 (n : ℚ)), rfl,
        le_min (by norm_num) (le_max_left _ _), min_le_left _ _⟩

/-- **C5 (witness).** The amended theorem at the concrete parsed object
`{"score": 7}` and an empty completion output. -/
theorem c5_amended_witness :
    scoreClamped (buildResult (JsonValue.jobj [("score".toList, JsonValue.jnum 7)])).score ∧
    (buildResult (JsonValue.jobj [("score".toList, JsonValue.jnum 7)])).tags ≠ [] := by
  have h := c5_amended (JsonValue.jobj [("score".toList, JsonValue.jnum 7)]) [] []
  exact ⟨h.2.2.2.1 (by decide), h.1.1⟩

/-!
## Completion Client retry — `src/lib/llm/service.ts`
-/

/-- `RETRY_CONFIG.maxAttempts`. -/
def retryMaxAttempts : Nat := 10

/-- `RETRY_CONFIG.initialDelayMs` (1 second). -/
def retryInitialDelayMs : ℚ := 1000

/-- `RETRY_CONFIG.maxDelayMs` (30 seconds). -/
def retryMaxDelayMs : ℚ := 30000

/-- `RETRY_CONFIG.retryableStatusCodes`. -/
def retryableStatusCodes : List ℤ := [429, 500, 502, 503, 504]

/-- `calculateRetryDelay(attempt)`: exponential delay capped at 30 s,
then ±25 % jitter, then a floor at the 1 s base. The `Math.random()`
draw is the parameter `r ∈ [0, 1)`. -/
def calculateRetryDelay (attempt : Nat) (r : ℚ) : ℚ :=
  let exponentialDelay := min (retryInitialDelayMs * 2 ^ attempt) retryMaxDelayMs
  let jitter := exponentialDelay * (1 / 4) * (r * 2 - 1)
  max (exponentialDelay + jitter) retryInitialDelayMs

/-- The fields of an error object that `isRetryableError` inspects
(`none` is an absent property). -/
structure ClaudeErr where
  status : Option ℤ
  etype : Option Str
  emsg : Option Str
deriving DecidableEq, Repr

/-- The `retryablePatterns` constant of `isRetryableError`. -/
def retryablePatterns : List Str :=
  [ "rate_limit".toList, "rate_limit_error".toList, "overloaded".toList,
    "temporarily unavailable".toList, "timeout".toList,
    "service unavailable".toList ]

/-- `isRetryableError`: a truthy status in the retryable list, or a
retryable pattern in the lowercased type or message. -/
def isRetryableError (e : ClaudeErr) : Bool :=
  let statusRetryable :=
    match e.status with
    | some s => !(s = 0) && decide (s ∈ retryableStatusCodes)
    | none => false
  if statusRetryable then true
  else
    let t := lowerStr (e.etype.getD [])
    let m := lowerStr (e.emsg.getD [])
    retryablePatterns.any (fun p => hasSub p t || hasSub p m)

/-- The outcome of one `anthropic.messages.create` call. -/
inductive CallOutcome where
  | ok : Str → CallOutcome
  | err : ClaudeErr → CallOutcome
deriving DecidableEq, Repr

/-- Success or the error finally thrown. -/
inductive RetryOutcome where
  | success : Str → RetryOutcome
  | failure : ClaudeErr → RetryOutcome
deriving DecidableEq, Repr

/-- What one run of the retry loop did: its outcome, how many calls it
issued, and the backoff delays it slept. -/
structure RetryTrace where
  outcome : RetryOutcome
  calls : Nat
  delays : List ℚ
deriving DecidableEq, Repr

/-- The retry loop of `callClaudeWithRetry`, with the call outcomes and
the `Math.random()` draws passed as oracles indexed by attempt number:
success returns; a non-retryable error is thrown immediately; a
retryable error sleeps `calculateRetryDelay(attempt)` and retries unless
this was the last attempt, in which case the loop ends and the last
error is thrown. -/
def runRetryAux (outs : Nat → CallOutcome) (rs : Nat → ℚ) : Nat → Nat → RetryTrace
  | _, 0 => ⟨.failure ⟨none, none, none⟩, 0, []⟩
  | attempt, fuel + 1 =>
    match outs attempt with
    | .ok t => ⟨.success t, 1, []⟩
    | .err e =>
      if isRetryableError e then
        if fuel = 0 then ⟨.failure e, 1, []⟩
        else
          let rest := runRetryAux outs rs (attempt + 1) fuel
          ⟨rest.outcome, rest.calls + 1, calculateRetryDelay attempt (rs attempt) :: rest.delays⟩
      else ⟨.failure e, 1, []⟩

/-- `callClaudeWithRetry`: the loop starting at attempt 0 with
`RETRY_CONFIG.maxAttempts` attempts available. -/
def callClaudeWithRetry (outs : Nat → CallOutcome) (rs : Nat → ℚ) : RetryTrace :=
  runRetryAux outs rs 0 retryMaxAttempts

/-- **C8 (counterexample).** At attempt 5 with a random draw of 0.9 the
computed delay is 36 000 ms: the exponential delay is capped at the
30-second maximum *before* the ±25 % jitter is added, so the delay
exceeds the 30-second cap. -/
theorem c8_counterexample :
    calculateRetryDelay 5 (9 / 10) = 36000 ∧ (30000 : ℚ) < 36000 := by
  constructor
  · show max (min (1000 * 2 ^ 5) 30000 + min (1000 * 2 ^ 5) 30000 * (1 / 4) * ((9:ℚ) / 10 * 2 - 1)) 1000 = 36000
    norm_num
  · norm_num

/-- The loop issues at most `fuel` calls. -/
theorem runRetryAux_calls_le (outs : Nat → CallOutcome) (rs : Nat → ℚ) :
    ∀ fuel attempt, (runRetryAux outs rs attempt fuel).calls ≤ fuel := by
  intro fuel
  induction fuel with
  | zero => intro attempt; exact Nat.le_refl 0
  | succ n ih =>
    intro attempt
    rcases houts : outs attempt with t | e
    · simp [runRetryAux, houts]
    · by_cases hr : isRetryableError e
      · by_cases hf : n = 0
        · simp [runRetryAux, houts, hr, hf]
        · simp only [runRetryAux, houts, hr, if_true, if_neg hf]
          exact Nat.succ_le_succ (ih (attempt + 1))
      · simp [runRetryAux, houts, hr]

/-- Every non-final call the loop makes failed with a retryable error. -/
theorem runRetryAux_only_retryable (outs : Nat → CallOutcome) (rs : Nat → ℚ) :
    ∀ fuel attempt i, i + 1 < (runRetryAux outs rs attempt fuel).calls →
      ∃ e, outs (attempt + i) = .err e ∧ isRetryableError e = true := by
  intro fuel
  induction fuel with
  | zero => intro attempt i h; exact absurd h (by simp [runRetryAux])
  | succ n ih =>
    intro attempt i h
    rcases ho : outs attempt with t | e
    · rw [show (runRetryAux outs rs attempt (n + 1)) = ⟨.success t, 1, []⟩ from by
        simp [runRetryAux, ho]] at h
      simp at h
    · by_cases hr : isRetryableError e
      · by_cases hf : n = 0
        · rw [show (runRetryAux outs rs attempt (n + 1)) = ⟨.failure e, 1, []⟩ from by
            simp [runRetryAux, ho, hr, hf]] at h
          simp at h
        · rw [show (runRetryAux outs rs attempt (n + 1)).calls =
              (runRetryAux outs rs (attempt + 1) n).calls + 1 from by
            simp [runRetryAux, ho, hr, hf]] at h
          cases i with
          | zero => exact ⟨e, by simpa using ho, hr⟩
          | succ j =>
            have hj : j + 1 < (runRetryAux outs rs (attempt + 1) n).calls :=
              Nat.lt_of_succ_lt_succ h
            rcases ih (attempt + 1) j hj with ⟨e2, he2, hre2⟩
            refine ⟨e2, ?_, hre2⟩
            rw [← he2]
            congr 1
            omega
      · rw [show (runRetryAux outs rs attempt (n + 1)) = ⟨.failure e, 1, []⟩ from by
          simp [runRetryAux, ho, hr]] at h
        simp at h

/-- **C8 (amended).** The completion client retries only on the fixed
transient-failure taxonomy embodied in `isRetryableError` (HTTP
429/500/502/503/504 or the rate-limit/overload/timeout message
patterns), issues at most 10 calls, propagates a non-retryable first
error immediately with no retry and no delay, and every computed backoff
delay lies between the 1-second base (inclusive) and 37.5 seconds
(exclusive): the ±25 % jitter is applied *after* the 30-second cap, so
delays may exceed the cap by up to a quarter. -/
theorem c8_amended (outs : Nat → CallOutcome) (rs : Nat → ℚ) :
    (callClaudeWithRetry outs rs).calls ≤ 10 ∧
    (∀ e, outs 0 = .err e → isRetryableError e = false →
      callClaudeWithRetry outs rs = ⟨.failure e, 1, []⟩) ∧
    (∀ i, i + 1 < (callClaudeWithRetry outs rs).calls →
      ∃ e, outs i = .err e ∧ isRetryableError e = true) ∧
    (∀ (a : Nat) (r : ℚ), 0 ≤ r → r < 1 →
      1000 ≤ calculateRetryDelay a r ∧ calculateRetryDelay a r < 37500) := by
  refine ⟨runRetryAux_calls_le outs rs 10 0, ?_, ?_, ?_⟩
  · intro e he hnr
    have hstep : callClaudeWithRetry outs rs = runRetryAux outs rs 0 10 := rfl
    rw [hstep, show (10 : ℕ) = 9 + 1 from rfl]
    simp [runRetryAux, he, hnr]
  · intro i h
    have := runRetryAux_only_retryable outs rs 10 0 i h
    simpa using this
  · intro a r hr0 hr1
    unfold calculateRetryDelay retryInitialDelayMs retryMaxDelayMs
    have h2 : (1 : ℚ) ≤ 2 ^ a := one_le_pow₀ (by norm_num)
    have he1 : (1000 : ℚ) ≤ min ((1000 : ℚ) * 2 ^ a) 30000 := by
      refine le_min ?_ (by norm_num)
      nlinarith [h2]
    have he2 : min ((1000 : ℚ) * 2 ^ a) 30000 ≤ 30000 := min_le_right _ _
    set e := min ((1000 : ℚ) * 2 ^ a) 30000 with hedef
    have hepos : (0 : ℚ) < e := lt_of_lt_of_le (by norm_num) he1
    constructor
    · exact le_max_right _ _
    · have hj : e * (1 / 4) * (r * 2 - 1) < e * (1 / 4) := by
        have : r * 2 - 1 < 1 := by linarith
        nlinarith [hepos]
      have hcap : e + e * (1 / 4) * (r * 2 - 1) < 37500 := by nlinarith
      exact max_lt hcap (by norm_num)

/-- **C8 (witness).** The amended theorem at concrete oracles: a
non-retryable 404 propagates immediately; a concrete jitter draw of 0.5
at attempt 5 gives a delay in range. -/
theorem c8_amended_witness :
    callClaudeWithRetry (fun _ => .err ⟨some 404, none, none⟩) (fun _ => 1 / 2) =
      ⟨.failure ⟨some 404, none, none⟩, 1, []⟩ ∧
    1000 ≤ calculateRetryDelay 5 (1 / 2) ∧ calculateRetryDelay 5 (1 / 2) < 37500 := by
  have h := c8_amended (fun _ => .err ⟨some 404, none, none⟩) (fun _ => 1 / 2)
  refine ⟨h.2.1 ⟨some 404, none, none⟩ rfl (by decide), ?_, ?_⟩
  · exact (h.2.2.2 5 (1 / 2) (by norm_num) (by norm_num)).1
  · exact (h.2.2.2 5 (1 / 2) (by norm_num) (by norm_num)).2

/-!
## Evidence Cache — `src/lib/cache/paper-cache.ts`
-/

/-- `CACHE_TTL`: 7 days in milliseconds. -/
def CACHE_TTL : ℤ := 7 * 24 * 60 * 60 * 1000

/-- What the file system reports for one cache file: existence, the stat
result (`none` models a thrown error), and the read result (`none`
models a thrown error). -/
structure CacheFsView where
  fileExists : Bool
  statResult : Option ℤ
  readResult : Option Str
deriving DecidableEq, Repr

/-- `getCachedPaper` of `paper-cache.ts` for the file the normalized id
selects: `null` when the file is absent; inside the `try`, `null` when
`stat` throws, when the age exceeds the TTL, or when `readFile` throws;
the stored content otherwise. Errors are caught, never rethrown, so the
model is a total function. -/
def getCachedPaper (fs : CacheFsView) (now : ℤ) : Option Str :=
  if !fs.fileExists then none
  else
    match fs.statResult with
    | none => none
    | some mtimeMs =>
      let age := now - mtimeMs
      if age > CACHE_TTL then none
      else
        match fs.readResult with
        | none => none
        | some content => some content

/-- **C10 (counterexample).** An entry written exactly 7 days ago is
still served: its age equals the TTL, so it is not *younger* than the
7-day TTL, yet `getCachedPaper` returns the stored content (the
expiry test is strict: `age > CACHE_TTL`). -/
theorem c10_counterexample :
    getCachedPaper ⟨true, some 0, some "X".toList⟩ CACHE_TTL = some "X".toList ∧
    ¬ (CACHE_TTL - 0 < CACHE_TTL) := by
  exact ⟨by decide, by decide⟩

/-- **C10 (amended).** `getCachedPaper` never throws (all file-system
failures are caught and folded into `null`) and never serves stale
content: it returns `null` when the file is absent, when `stat` or
`readFile` fails, or when the entry is older than the 7-day TTL; and it
returns content only when that is exactly the stored content and the
entry's age is *at most* the TTL (an entry aged exactly 7 days is still
served). -/
theorem c10_amended (fs : CacheFsView) (now : ℤ) :
    (fs.fileExists = false → getCachedPaper fs now = none) ∧
    (fs.statResult = none → getCachedPaper fs now = none) ∧
    (fs.readResult = none → getCachedPaper fs now = none) ∧
    (∀ mtimeMs, fs.statResult = some mtimeMs → now - mtimeMs > CACHE_TTL →
      getCachedPaper fs now = none) ∧
    (∀ c, getCachedPaper fs now = some c →
      fs.readResult = some c ∧
      ∃ mtimeMs, fs.statResult = some mtimeMs ∧ now - mtimeMs ≤ CACHE_TTL) := by
  refine ⟨?_, ?_, ?_, ?_, ?_⟩
  · intro h; simp [getCachedPaper, h]
  · intro h; simp [getCachedPaper, h]
  · intro h
    cases hst : fs.statResult with
    | none => simp [getCachedPaper, hst]
    | some m => simp [getCachedPaper, h, hst]
  · intro m hm hage
    simp [getCachedPaper, hm, hage]
  · intro c hc
    by_cases hex : fs.fileExists
    case neg => simp [getCachedPaper, hex] at hc
    case pos =>
      cases hst : fs.statResult with
      | none => simp [getCachedPaper, hex, hst] at hc
      | some m =>
        by_cases hage : now - m > CACHE_TTL
        · simp [getCachedPaper, hex, hst, hage] at hc
        · cases hrd : fs.readResult with
          | none => simp [getCachedPaper, hex, hst, hage, hrd] at hc
          | some content =>
            simp [getCachedPaper, hex, hst, hage, hrd] at hc
            subst hc
            exact ⟨rfl, m, rfl, by linarith [not_lt.mp hage]⟩

/-- **C10 (witness).** The amended theorem at a concrete fresh entry. -/
theorem c10_amended_witness :
    (⟨true, some 0, some "hello".toList⟩ : CacheFsView).readResult = some "hello".toList ∧
    ∃ mtimeMs, (⟨true, some 0, some "hello".toList⟩ : CacheFsView).statResult = some mtimeMs ∧
      (5 : ℤ) - mtimeMs ≤ CACHE_TTL :=
  (c10_amended ⟨true, some 0, some "hello".toList⟩ 5).2.2.2.2 "hello".toList (by decide)

/-!
## Analysis Ledger — `src/app/api/reanalyze/route.ts`

The reanalyze endpoint reads the stored papers, selects which ones a
request at a given depth may touch (the upgrade-only filter of lines
66–103), and for each selected paper overwrites the analysis fields and
records the requested depth (lines 186–198). The `analysis_type` a paper
carries can be any of the values observable in the data: a depth string,
the legacy string `none` written by the fetch route, JavaScript `null`,
or an absent property; the theorems quantify over all of them.
-/

/-- A requested analysis depth. -/
inductive ReqDepth where
  | basic | standard | full
deriving DecidableEq, Repr

/-- The value of the stored `analysis_type` field as the route's strict
equality tests see it. -/
inductive ATypeField where
  | undef | jsNull | basic | standard | full | noneStr
deriving DecidableEq, Repr

/-- The stored per-paper ledger record (the fields the reanalyze route
reads or writes; `Option` fields use `none` for JavaScript-falsy
values). -/
structure PaperRec where
  is_deep_analyzed : Bool
  analysis_type : ATypeField
  filter_score : Option ℤ
  filter_reason : Option Str
  ai_summary : Option Str
  key_insights : Option (List Str)
  engineering_notes : Option Str
  code_links : List Str
  key_formulas : Option JsonValue
  algorithms : Option JsonValue
  flow_diagram : Option JsonValue
  tags : List Str

/-- The deep-analysis payload of one analyze-endpoint response. -/
structure DeepPayload where
  ai_summary : Option Str
  key_insights : Option (List Str)
  engineering_notes : Option Str
  code_links : Option (List Str)
  key_formulas : Option JsonValue
  algorithms : Option JsonValue
  flow_diagram : Option JsonValue

/-- The parts of one analyze-endpoint response the update reads. -/
structure ReanalyzeAnalysis where
  score : Option ℤ
  scoreReason : Option Str
  deep : Option DeepPayload

/-- The upgrade-only selection filter of the reanalyze route:
`basic` touches only unanalyzed papers; `standard` also papers whose
`analysis_type` is `'basic'` or `null` with score at or above the
threshold; `full` also `'standard'` ones. A paper at `full` is never
selected by a lower-depth request. -/
def reanalyzeSelected (depth : ReqDepth) (threshold : ℤ) (p : PaperRec) : Bool :=
  match depth with
  | .basic => !p.is_deep_analyzed
  | .standard =>
    if !p.is_deep_analyzed then true
    else
      let isBasicOrUnanalyzed :=
        decide (p.analysis_type = .basic) || decide (p.analysis_type = .jsNull)
      isBasicOrUnanalyzed && decide (p.filter_score.getD 0 ≥ threshold)
  | .full =>
    if !p.is_deep_analyzed then true
    else
      let isUpgradable :=
        decide (p.analysis_type = .basic) || decide (p.analysis_type = .standard) ||
          decide (p.analysis_type = .jsNull)
      isUpgradable && decide (p.filter_score.getD 0 ≥ threshold)

/-- The `analysis_type` value the update writes for a requested depth. -/
def depthToAType : ReqDepth → ATypeField
  | .basic => .basic
  | .standard => .standard
  | .full => .full

/-- `a || b` on option-modelled JavaScript values. -/
def jsOrOpt (a b : Option α) : Option α :=
  match a with
  | some v => some v
  | none => b

/-- The `localService.updatePaper` call of the reanalyze route (lines
186–198): analysis fields overwritten with `||`-fallbacks, the deep
fields replaced (`null` when the response has none), `is_deep_analyzed`
set, and `analysis_type` set to the requested depth. -/
def applyReanalyzeUpdate (depth : ReqDepth) (a : ReanalyzeAnalysis) (p : PaperRec) : PaperRec :=
  { p with
    ai_summary := jsOrOpt (a.deep.bind (fun d => d.ai_summary)) p.ai_summary
    key_insights := a.deep.bind (fun d => d.key_insights)
    engineering_notes := a.deep.bind (fun d => d.engineering_notes)
    code_links := (a.deep.bind (fun d => d.code_links)).getD []
    key_formulas := a.deep.bind (fun d => d.key_formulas)
    algorithms := a.deep.bind (fun d => d.algorithms)
    flow_diagram := a.deep.bind (fun d => d.flow_diagram)
    filter_score := jsOrOpt a.score p.filter_score
    filter_reason := jsOrOpt a.scoreReason p.filter_reason
    is_deep_analyzed := true
    analysis_type := depthToAType depth }

/-- One pass of the reanalyze route over one paper: update if the
upgrade-only filter selects it, else leave the record untouched. -/
def reanalyzeStep (depth : ReqDepth) (threshold : ℤ) (a : ReanalyzeAnalysis)
    (p : PaperRec) : PaperRec :=
  if reanalyzeSelected depth threshold p then applyReanalyzeUpdate depth a p else p

/-- One reanalysis request as it affects one paper. -/
structure ReanalyzeReq where
  depth : ReqDepth
  threshold : ℤ
  analysis : ReanalyzeAnalysis

/-- A sequence of reanalysis requests applied to one paper. -/
def applyReanalyzeRuns (reqs : List ReanalyzeReq) (p : PaperRec) : PaperRec :=
  reqs.foldl (fun q r => reanalyzeStep r.depth r.threshold r.analysis q) p

/-- The ledger depth of a stored record on the scale
`none < basic < standard < full`: a paper that is not deep-analyzed is at
`none`; otherwise its `analysis_type` decides, with the legacy values
(`null`, absent, `'none'`) counting as basic-level work. -/
def storedDepthRank (p : PaperRec) : Nat :=
  if !p.is_deep_analyzed then 0
  else
    match p.analysis_type with
    | .full => 3
    | .standard => 2
    | _ => 1

/-- A single pass never lowers the stored depth. -/
theorem reanalyzeStep_mono (depth : ReqDepth) (threshold : ℤ)
    (a : ReanalyzeAnalysis) (p : PaperRec) :
    storedDepthRank p ≤ storedDepthRank (reanalyzeStep depth threshold a p) := by
  unfold reanalyzeStep
  by_cases hsel : reanalyzeSelected depth threshold p
  · rw [if_pos hsel]
    have hnew : storedDepthRank (applyReanalyzeUpdate depth a p) =
        match depth with
        | .basic => 1
        | .standard => 2
        | .full => 3 := by
      cases depth <;> rfl
    cases depth with
    | basic =>
      have hd : p.is_deep_analyzed = false := by
        simpa [reanalyzeSelected] using hsel
      rw [hnew]
      simp [storedDepthRank, hd]
    | standard =>
      rw [hnew]
      by_cases hd : p.is_deep_analyzed
      · have hb : p.analysis_type = .basic ∨ p.analysis_type = .jsNull := by
          simp [reanalyzeSelected, hd] at hsel
          tauto
        rcases hb with hb | hb <;> simp [storedDepthRank, hd, hb]
      · simp [storedDepthRank, hd]
    | full =>
      rw [hnew]
      by_cases hd : p.is_deep_analyzed
      · have hb : p.analysis_type = .basic ∨ p.analysis_type = .standard ∨
            p.analysis_type = .jsNull := by
          simp [reanalyzeSelected, hd] at hsel
          tauto
        rcases hb with hb | hb | hb <;> simp [storedDepthRank, hd, hb]
      · simp [storedDepthRank, hd]
  · rw [if_neg hsel]

/-- A paper recorded at depth `full` is not selected by a `basic` or
`standard` request, so the pass leaves its record untouched. -/
theorem reanalyzeStep_full_fixed (depth : ReqDepth) (threshold : ℤ)
    (a : ReanalyzeAnalysis) (p : PaperRec)
    (hdeep : p.is_deep_analyzed = true) (hfull : p.analysis_type = ATypeField.full)
    (hreq : depth ≠ ReqDepth.full) :
    reanalyzeStep depth threshold a p = p := by
  have hsel : reanalyzeSelected depth threshold p = false := by
    cases depth with
    | basic => simp [reanalyzeSelected, hdeep]
    | standard => simp [reanalyzeSelected, hdeep, hfull]
    | full => exact absurd rfl hreq
  simp [reanalyzeStep, hsel]

/-- **C1.** Upgrade-only ledger invariant: over any sequence of
reanalysis requests the stored depth (`none < basic < standard < full`)
never decreases, and a paper already at depth `full` is left completely
untouched — depth, score, and every detail field — by any sequence of
`basic`/`standard` requests. -/
theorem c1_upgrade_only (p : PaperRec) (reqs : List ReanalyzeReq) :
    storedDepthRank p ≤ storedDepthRank (applyReanalyzeRuns reqs p) ∧
    (p.is_deep_analyzed = true → p.analysis_type = ATypeField.full →
      (∀ r ∈ reqs, r.depth ≠ ReqDepth.full) → applyReanalyzeRuns reqs p = p) := by
  induction reqs generalizing p with
  | nil => exact ⟨Nat.le_refl _, fun _ _ _ => rfl⟩
  | cons r rest ih =>
    constructor
    · calc storedDepthRank p
          ≤ storedDepthRank (reanalyzeStep r.depth r.threshold r.analysis p) :=
            reanalyzeStep_mono r.depth r.threshold r.analysis p
        _ ≤ storedDepthRank (applyReanalyzeRuns rest
              (reanalyzeStep r.depth r.threshold r.analysis p)) :=
            (ih (reanalyzeStep r.depth r.threshold r.analysis p)).1
    · intro hdeep hfull hreq
      have hfix : reanalyzeStep r.depth r.threshold r.analysis p = p :=
        reanalyzeStep_full_fixed r.depth r.threshold r.analysis p hdeep hfull
          (hreq r (List.mem_cons_self r rest))
      have hrest : applyReanalyzeRuns rest p = p :=
        (ih p).2 hdeep hfull (fun q hq => hreq q (List.mem_cons_of_mem r hq))
      show applyReanalyzeRuns rest (reanalyzeStep r.depth r.threshold r.analysis p) = p
      rw [hfix, hrest]

/-- **C1 (witness).** A concrete paper at depth `full` is untouched by a
`basic` followed by a `standard` reanalysis request. -/
theorem c1_upgrade_only_witness :
    applyReanalyzeRuns
      [⟨ReqDepth.basic, 7, ⟨some 5, none, none⟩⟩,
       ⟨ReqDepth.standard, 7, ⟨some 5, none, none⟩⟩]
      ⟨true, ATypeField.full, some 9, some "solid".toList, some "sum".toList,
        some ["i1".toList], some "notes".toList, [], none, none, none, ["llm".toList]⟩ =
    ⟨true, ATypeField.full, some 9, some "solid".toList, some "sum".toList,
        some ["i1".toList], some "notes".toList, [], none, none, none, ["llm".toList]⟩ :=
  (c1_upgrade_only _ _).2 rfl rfl (by
    intro r hr
    fin_cases hr <;> decide)

/-!
## Text Extractor — `src/lib/paper/latex-parser.ts`
-/

/-- Literal global replace: `lit` at the head becomes `repl`. -/
def litMatch (lit repl : Str) : Str → Option (Str × Str) := fun l =>
  if strLeads lit l then some (repl, l.drop lit.length) else none

/-- Parse a `{...}` group whose body has no closing brace (regex
`\{[^}]+\}`, or `\{[^}]*\}` when `allowEmpty`); returns the suffix after
the closing brace. -/
def braceArg (allowEmpty : Bool) (l : Str) : Option Str :=
  match l with
  | c :: rest =>
    if c = lbrace then
      let arg := rest.takeWhile (fun d => !(d = rbrace))
      if !allowEmpty && arg.isEmpty then none
      else
        match rest.drop arg.length with
        | d :: r2 => if d = rbrace then some r2 else none
        | [] => none
    else none
  | [] => none

/-- Matcher for `\newcommand{...}{...}` and
`\DeclareMathOperator{...}{...}` (first group nonempty, second possibly
empty), replaced by nothing. -/
def cmdTwoArgMatch (cmd : Str) : Str → Option (Str × Str) := fun l =>
  if strLeads cmd l then
    match braceArg false (l.drop cmd.length) with
    | some r1 =>
      match braceArg true r1 with
      | some r2 => some ([], r2)
      | none => none
    | none => none
  else none

/-- Matcher for `cmd{...}` with nonempty body, replaced by `repl`. -/
def cmdArgMatch (cmd repl : Str) : Str → Option (Str × Str) := fun l =>
  if strLeads cmd l then
    match braceArg false (l.drop cmd.length) with
    | some r1 => some (repl, r1)
    | none => none
  else none

/-- Matcher for `\citep?{...}` (the optional `p`), replaced by
`[CITATION]`. -/
def citePMatch : Str → Option (Str × Str) := fun l =>
  if strLeads "\\cite".toList l then
    let r0 := l.drop 5
    let r1 := match r0 with
      | 'p' :: r => r
      | _ => r0
    match braceArg false r1 with
    | some r2 => some ("[CITATION]".toList, r2)
    | none => none
  else none

/-- Matcher for `\citep?[[^]]*]{...}`, replaced by `[CITATION]`. -/
def citePOptMatch : Str → Option (Str × Str) := fun l =>
  if strLeads "\\cite".toList l then
    let r0 := l.drop 5
    let r1 := match r0 with
      | 'p' :: r => r
      | _ => r0
    match r1 with
    | b :: r2 =>
      if b = lbrack then
        let inner := r2.takeWhile (fun d => !(d = rbrack))
        match r2.drop inner.length with
        | e :: r3 =>
          if e = rbrack then
            match braceArg false r3 with
            | some r4 => some ("[CITATION]".toList, r4)
            | none => none
          else none
        | [] => none
      else none
    | [] => none
  else none

/-- Matcher for a lazy environment span
`beginTok [\s\S]*? endTok`, replaced by `repl`: from the opener to the
*first* closer. -/
def envMatch (beginTok endTok repl : Str) : Str → Option (Str × Str) := fun l =>
  if strLeads beginTok l then
    let rest := l.drop beginTok.length
    match findSubFrom endTok rest 0 with
    | some j => some (repl, rest.drop (j + endTok.length))
    | none => none
  else none

/-- `/%.*$/gm → ''`: every line is cut at its first `%`. -/
def stripLineComments (s : Str) : Str :=
  List.intercalate ['\n'] ((s.splitOn '\n').map (fun line => line.takeWhile (fun c => !(c = '%'))))

/-- Matcher for `/\n\s*\n\s*\n/g → '\n\n'` under JavaScript greedy
backtracking: a newline whose following maximal whitespace run contains
at least two more newlines matches up to the last newline of that run. -/
def blankMatch : Str → Option (Str × Str) := fun l =>
  match l with
  | c :: rest =>
    if c = '\n' then
      let run := rest.takeWhile isWsChar
      if countChar '\n' run ≥ 2 then
        match lastIdxOfChar run '\n' with
        | some k => some ("\n\n".toList, rest.drop (k + 1))
        | none => none
      else none
    else none
  | [] => none

/-- `cleanLatexContent` of `latex-parser.ts`: the chain of global
replaces in source order, then collapse of blank-line runs, then trim. -/
def cleanLatexContent (tex : Str) : Str :=
  let s1 := stripLineComments tex
  let s2 := scanRepl (cmdTwoArgMatch "\\newcommand".toList) s1
  let s3 := scanRepl (cmdTwoArgMatch "\\DeclareMathOperator".toList) s2
  let s4 := scanRepl (cmdArgMatch "\\cite".toList "[CITATION]".toList) s3
  let s5 := scanRepl citePMatch s4
  let s6 := scanRepl citePOptMatch s5
  let s7 := scanRepl (cmdArgMatch "\\nocite".toList [] ) s6
  let s8 := scanRepl (cmdArgMatch "\\ref".toList "[REF]".toList) s7
  let s9 := scanRepl (cmdArgMatch "\\eqref".toList "[EQ]".toList) s8
  let s10 := scanRepl (cmdArgMatch "\\cref".toList "[REF]".toList) s9
  let s11 := scanRepl (envMatch "\\begin\x7bfigure\x7d".toList "\\end\x7bfigure\x7d".toList "[FIGURE]".toList) s10
  let s12 := scanRepl (envMatch "\\begin\x7bfigure*\x7d".toList "\\end\x7bfigure*\x7d".toList "[FIGURE]".toList) s11
  let s13 := scanRepl (litMatch "\\begin\x7btable\x7d".toList "[TABLE]\n".toList) s12
  let s14 := scanRepl (litMatch "\\end\x7btable\x7d".toList "\n[END TABLE]".toList) s13
  let s15 := scanRepl (litMatch "\\begin\x7btable*\x7d".toList "[TABLE]\n".toList) s14
  let s16 := scanRepl (litMatch "\\end\x7btable*\x7d".toList "\n[END TABLE]".toList) s15
  let s17 := scanRepl (litMatch "\\begin\x7bdocument\x7d".toList [] ) s16
  let s18 := scanRepl (litMatch "\\end\x7bdocument\x7d".toList [] ) s17
  let s19 := scanRepl blankMatch s18
  jsTrim s19

/-- `extractMainSections`: full mode returns the entire cleaned
content. -/
def extractMainSections (tex : Str) : Str :=
  cleanLatexContent tex

/-- Case-insensitive `strLeads`. -/
def ciLeads : Str → Str → Bool
  | [], _ => true
  | _ :: _, [] => false
  | a :: as, b :: bs => lowerChar a = lowerChar b && ciLeads as bs

/-- Does `lit` occur case-insensitively at offset `i`? -/
def litCIAt (l : Str) (i : Nat) (lit : Str) : Bool :=
  ciLeads lit (l.drop i)

/-- Length of the whitespace run starting at offset `i`. -/
def wsRun (l : Str) (i : Nat) : Nat :=
  ((l.drop i).takeWhile isWsChar).length

/-- The literal `\section{`. -/
def secOpen : Str := "\\section\x7b".toList

/-- Intro pattern 1: `/\\section\{Introduction\}/i`. -/
def introP1 (l : Str) (i : Nat) : Option Nat :=
  if litCIAt l i "\\section\x7bIntroduction\x7d".toList then some (i + 22) else none

/-- Intro pattern 2: `/\\section\{\s*1\.?\s*Introduction\s*\}/i`. -/
def introP2 (l : Str) (i : Nat) : Option Nat :=
  if litCIAt l i secOpen then
    let j1 := i + 9 + wsRun l (i + 9)
    if charAt l j1 = '1' then
      let j2 := j1 + 1
      let j3 := if charAt l j2 = '.' then j2 + 1 else j2
      let j4 := j3 + wsRun l j3
      if litCIAt l j4 "introduction".toList then
        let j5 := j4 + 12
        let j6 := j5 + wsRun l j5
        if charAt l j6 = rbrace then some (j6 + 1) else none
      else none
    else none
  else none

/-- Intro pattern 3: `/\\section\{\s*I\.?\s*Introduction\s*\}/i`. -/
def introP3 (l : Str) (i : Nat) : Option Nat :=
  if litCIAt l i secOpen then
    let j1 := i + 9 + wsRun l (i + 9)
    if lowerChar (charAt l j1) = 'i' then
      let j2 := j1 + 1
      let j3 := if charAt l j2 = '.' then j2 + 1 else j2
      let j4 := j3 + wsRun l j3
      if litCIAt l j4 "introduction".toList then
        let j5 := j4 + 12
        let j6 := j5 + wsRun l j5
        if charAt l j6 = rbrace then some (j6 + 1) else none
      else none
    else none
  else none

/-- Intro pattern 4: `/\\section\{[\d\.]+\s*Introduction\}/i`. -/
def introP4 (l : Str) (i : Nat) : Option Nat :=
  if litCIAt l i secOpen then
    let digs := ((l.drop (i + 9)).takeWhile (fun c => isDigitChar c || c = '.')).length
    if digs = 0 then none
    else
      let j2 := i + 9 + digs
      let j3 := j2 + wsRun l j2
      if litCIAt l j3 "introduction\x7d".toList then some (j3 + 13) else none
  else none

/-- Conclusion patterns 1–4: the fixed headings. -/
def conclP1 (l : Str) (i : Nat) : Option Nat :=
  if litCIAt l i "\\section\x7bConclusion\x7d".toList then some (i + 20) else none

/-- See `conclP1`. -/
def conclP2 (l : Str) (i : Nat) : Option Nat :=
  if litCIAt l i "\\section\x7bConclusions\x7d".toList then some (i + 21) else none

/-- See `conclP1`. -/
def conclP3 (l : Str) (i : Nat) : Option Nat :=
  if litCIAt l i "\\section\x7bConcluding Remarks\x7d".toList then some (i + 28) else none

/-- See `conclP1`. -/
def conclP4 (l : Str) (i : Nat) : Option Nat :=
  if litCIAt l i "\\section\x7bDiscussion and Conclusion\x7d".toList then some (i + 35) else none

/-- Conclusion pattern 5:
`/\\section\{\s*\d+\.?\s*Conclusion[s]?\s*\}/i`. -/
def conclP5 (l : Str) (i : Nat) : Option Nat :=
  if litCIAt l i secOpen then
    let j0 := i + 9 + wsRun l (i + 9)
    let digs := ((l.drop j0).takeWhile isDigitChar).length
    if digs = 0 then none
    else
      let j2 := j0 + digs
      let j3 := if charAt l j2 = '.' then j2 + 1 else j2
      let j4 := j3 + wsRun l j3
      if litCIAt l j4 "conclusion".toList then
        let j5 := j4 + 10
        let j6 := if lowerChar (charAt l j5) = 's' then j5 + 1 else j5
        let j7 := j6 + wsRun l j6
        if charAt l j7 = rbrace then some (j7 + 1) else none
      else none
  else none

/-- Leftmost position at which a header matcher succeeds, with the
header's end index. -/
def findHdrAux (m : Str → Nat → Option Nat) (l : Str) : Nat → Nat → Option (Nat × Nat)
  | _, 0 => none
  | i, fuel + 1 =>
    match m l i with
    | some h => some (i, h)
    | none => findHdrAux m l (i + 1) fuel

/-- Leftmost match of a header pattern over the whole string, as the
regex `match` call does. -/
def findHdr (m : Str → Nat → Option Nat) (l : Str) : Option (Nat × Nat) :=
  findHdrAux m l 0 (l.length + 1)

/-- The introduction search: the four patterns tried in order over the
whole cleaned text, first pattern with any match wins. -/
def introFind (l : Str) : Option (Nat × Nat) :=
  (findHdr introP1 l).orElse fun _ =>
    (findHdr introP2 l).orElse fun _ =>
      (findHdr introP3 l).orElse fun _ => findHdr introP4 l

/-- The conclusion search: five patterns in order, first match wins. -/
def conclFind (l : Str) : Option (Nat × Nat) :=
  (findHdr conclP1 l).orElse fun _ =>
    (findHdr conclP2 l).orElse fun _ =>
      (findHdr conclP3 l).orElse fun _ =>
        (findHdr conclP4 l).orElse fun _ => findHdr conclP5 l

/-- The lookahead `(?=\\section\{|\\bibliography|$)`: does a stop token
start at offset `i`? -/
def isStopAt (l : Str) (i : Nat) : Bool :=
  litCIAt l i secOpen || litCIAt l i "\\bibliography".toList

/-- First stop-token offset at or after `k` (the string's end if none):
where the lazy section body ends. -/
def stopFromAux (l : Str) : Nat → Nat → Nat
  | i, 0 => i
  | i, fuel + 1 => if isStopAt l i then i else stopFromAux l (i + 1) fuel

/-- See `stopFromAux`. -/
def stopFrom (l : Str) (k : Nat) : Nat :=
  stopFromAux l k (l.length - k)

/-- The matched section span: from the header start to the next stop
token (or the end of the text). -/
def sectionSpan (l : Str) (s h : Nat) : Str :=
  (l.drop s).take (stopFrom l h - s)

/-- The separator `sections.join('\n\n---\n\n')` uses. -/
def sectionSep : Str := "\n\n---\n\n".toList

/-- The section list `extractIntroAndConclusion` builds: the matched
introduction span, then the matched conclusion span, each omitted when
its search fails. -/
def introConclSections (cleaned : Str) : List Str :=
  (match introFind cleaned with
   | some (s, h) => [sectionSpan cleaned s h]
   | none => []) ++
  (match conclFind cleaned with
   | some (s, h) => [sectionSpan cleaned s h]
   | none => [])

/-- `extractIntroAndConclusion` of `latex-parser.ts`: clean, find the
introduction and conclusion spans, join them with the 7-character
separator; fall back to the first 3000 characters with an explanatory
note when neither is found. -/
def extractIntroAndConclusion (tex : Str) : Str :=
  let cleaned := cleanLatexContent tex
  let sections : List Str := introConclSections cleaned
  if sections.isEmpty then
    let fallbackLength := min 3000 cleaned.length
    cleaned.take fallbackLength ++
      "\n\n[Note: Could not find Introduction/Conclusion sections, using paper beginning]".toList
  else List.intercalate sectionSep sections

/-- `extractContentByDepth`: nothing for `basic`, the
introduction+conclusion slice for `standard`, everything for `full`. -/
def extractContentByDepth (tex : Str) (depth : ReqDepth) : Str :=
  match depth with
  | .basic => []
  | .standard => extractIntroAndConclusion tex
  | .full => extractMainSections tex

/-- The trailing marker `truncateToLength` appends (24 characters). -/
def truncMarker : Str := "\n\n[Content truncated...]".toList

/-- `truncateToLength` of `latex-parser.ts` (call sites pass the
150 000-character ceiling): content within the limit is returned
unchanged; otherwise cut at the limit, preferring the last period when
it lies past 80 % of the limit, and append the trailing marker. -/
def truncateToLength (content : Str) (maxLength : Nat) : Str :=
  if content.length ≤ maxLength then content
  else
    let truncated := content.take maxLength
    match lastIdxOfChar truncated '.' with
    | some lastPeriod =>
      if (lastPeriod : ℚ) > (maxLength : ℚ) * (8 / 10) then
        truncated.take (lastPeriod + 1) ++ truncMarker
      else truncated ++ truncMarker
    | none => truncated ++ truncMarker


/-- If the reversed scan finds nothing, `lastIdxOfChar` is `none`
(stated over a variable string so instantiation never evaluates it). -/
theorem lastIdxOfChar_eq_none {s : Str} {c : Char}
    (h : s.reverse.findIdx? (fun d => d = c) = none) :
    lastIdxOfChar s c = none := by
  unfold lastIdxOfChar
  rw [h]

/-- `truncateToLength` returns short-enough content unchanged. -/
theorem truncateToLength_short {content : Str} {maxLength : Nat}
    (h : content.length ≤ maxLength) :
    truncateToLength content maxLength = content := by
  unfold truncateToLength
  rw [if_pos h]

/-- Over-long content with no period in the capped prefix: cut at the
limit and append the marker. -/
theorem truncateToLength_no_period {content : Str} {maxLength : Nat}
    (h : ¬ content.length ≤ maxLength)
    (hno : lastIdxOfChar (content.take maxLength) '.' = none) :
    truncateToLength content maxLength = content.take maxLength ++ truncMarker := by
  unfold truncateToLength
  rw [if_neg h]
  show (match lastIdxOfChar (content.take maxLength) '.' with
    | some lastPeriod =>
      if (lastPeriod : ℚ) > (maxLength : ℚ) * (8 / 10) then
        (content.take maxLength).take (lastPeriod + 1) ++ truncMarker
      else content.take maxLength ++ truncMarker
    | none => content.take maxLength ++ truncMarker) =
    content.take maxLength ++ truncMarker
  rw [hno]

/-- Over-long content whose last period lies past 80 % of the limit:
cut just after that period and append the marker. -/
theorem truncateToLength_period_late {content : Str} {maxLength p : Nat}
    (h : ¬ content.length ≤ maxLength)
    (hp : lastIdxOfChar (content.take maxLength) '.' = some p)
    (hcut : (p : ℚ) > (maxLength : ℚ) * (8 / 10)) :
    truncateToLength content maxLength =
      (content.take maxLength).take (p + 1) ++ truncMarker := by
  unfold truncateToLength
  rw [if_neg h]
  show (match lastIdxOfChar (content.take maxLength) '.' with
    | some lastPeriod =>
      if (lastPeriod : ℚ) > (maxLength : ℚ) * (8 / 10) then
        (content.take maxLength).take (lastPeriod + 1) ++ truncMarker
      else content.take maxLength ++ truncMarker
    | none => content.take maxLength ++ truncMarker) =
    (content.take maxLength).take (p + 1) ++ truncMarker
  rw [hp]
  show (if (p : ℚ) > (maxLength : ℚ) * (8 / 10) then
      (content.take maxLength).take (p + 1) ++ truncMarker
    else content.take maxLength ++ truncMarker) =
    (content.take maxLength).take (p + 1) ++ truncMarker
  rw [if_pos hcut]

/-- Over-long content whose last period lies at or before 80 % of the
limit: cut at the limit and append the marker. -/
theorem truncateToLength_period_early {content : Str} {maxLength p : Nat}
    (h : ¬ content.length ≤ maxLength)
    (hp : lastIdxOfChar (content.take maxLength) '.' = some p)
    (hcut : ¬ (p : ℚ) > (maxLength : ℚ) * (8 / 10)) :
    truncateToLength content maxLength = content.take maxLength ++ truncMarker := by
  unfold truncateToLength
  rw [if_neg h]
  show (match lastIdxOfChar (content.take maxLength) '.' with
    | some lastPeriod =>
      if (lastPeriod : ℚ) > (maxLength : ℚ) * (8 / 10) then
        (content.take maxLength).take (lastPeriod + 1) ++ truncMarker
      else content.take maxLength ++ truncMarker
    | none => content.take maxLength ++ truncMarker) =
    content.take maxLength ++ truncMarker
  rw [hp]
  show (if (p : ℚ) > (maxLength : ℚ) * (8 / 10) then
      (content.take maxLength).take (p + 1) ++ truncMarker
    else content.take maxLength ++ truncMarker) =
    content.take maxLength ++ truncMarker
  rw [if_neg hcut]

/-- A found last index is inside the string. -/
theorem lastIdxOfChar_lt {s : Str} {c : Char} {p : Nat}
    (h : lastIdxOfChar s c = some p) : p < s.length := by
  unfold lastIdxOfChar at h
  rcases hf : s.reverse.findIdx? (fun d => d = c) with - | i
  · rw [hf] at h; cases h
  · rw [hf] at h
    have hi : i < s.reverse.length :=
      (List.findIdx?_eq_some_iff_findIdx_eq.mp hf).1
    rw [List.length_reverse] at hi
    cases h
    omega

/-- The capped prefix of a 150 001-letter run contains no period. -/
theorem replicate_take_no_period :
    ((List.replicate 150001 'a' : Str).take 150000).reverse.findIdx?
      (fun d => d = '.') = none := by
  rw [List.findIdx?_eq_none_iff]
  intro x hx
  have hx2 := List.mem_reverse.mp hx
  have := List.eq_of_mem_replicate (List.mem_of_mem_take hx2)
  simp [this]

/-- **C7 (counterexample).** A 150 001-character content with no period
truncates to 150 024 characters: the 24-character marker is appended
*after* the cut, so the result exceeds the 150 000-character ceiling. -/
theorem c7_counterexample :
    (truncateToLength (List.replicate 150001 'a') 150000).length = 150024 ∧
    150000 < (truncateToLength (List.replicate 150001 'a') 150000).length := by
  have hlen : (List.replicate 150001 'a' : Str).length = 150001 := List.length_replicate _ _
  have hgt : ¬ (List.replicate 150001 'a' : Str).length ≤ 150000 := by
    rw [hlen]; omega
  have hres := truncateToLength_no_period hgt
    (lastIdxOfChar_eq_none replicate_take_no_period)
  rw [hres]
  have htake : ((List.replicate 150001 'a' : Str).take 150000).length = 150000 := by
    rw [List.length_take, hlen]; omega
  have hmk : truncMarker.length = 24 := rfl
  constructor
  · rw [List.length_append, htake, hmk]
  · rw [List.length_append, htake, hmk]
    omega

/-- **C7 (amended).** Content within the 150 000-character ceiling is
returned unchanged; longer content is cut to at most the ceiling and the
24-character trailing marker is appended (so the full result may reach
150 024 characters, exceeding the ceiling by the marker); the cut is
made just after the last period of the capped prefix whenever that
period lies past 80 % of the limit. -/
theorem c7_amended (content : Str) :
    (content.length ≤ 150000 → truncateToLength content 150000 = content) ∧
    (content.length > 150000 →
      ∃ body : Str, truncateToLength content 150000 = body ++ truncMarker ∧
        body.length ≤ 150000 ∧
        (truncateToLength content 150000).length ≤ 150024) ∧
    (∀ p, content.length > 150000 →
      lastIdxOfChar (content.take 150000) '.' = some p →
      (p : ℚ) > (150000 : ℚ) * (8 / 10) →
      truncateToLength content 150000 = (content.take 150000).take (p + 1) ++ truncMarker) := by
  refine ⟨?_, ?_, ?_⟩
  · intro h
    exact truncateToLength_short h
  · intro h
    have hgt : ¬ content.length ≤ 150000 := by omega
    have htr : (content.take 150000).length = 150000 := by
      rw [List.length_take]
      omega
    have hmk : truncMarker.length = 24 := rfl
    rcases hp : lastIdxOfChar (content.take 150000) '.' with - | p
    · rw [truncateToLength_no_period hgt hp]
      refine ⟨content.take 150000, rfl, by omega, ?_⟩
      rw [List.length_append]
      omega
    · have hplt : p < (content.take 150000).length := lastIdxOfChar_lt hp
      by_cases hcut : (p : ℚ) > (150000 : ℚ) * (8 / 10)
      · rw [truncateToLength_period_late hgt hp hcut]
        refine ⟨(content.take 150000).take (p + 1), rfl, ?_, ?_⟩
        · rw [List.length_take]
          omega
        · rw [List.length_append, List.length_take]
          omega
      · rw [truncateToLength_period_early hgt hp hcut]
        refine ⟨content.take 150000, rfl, by omega, ?_⟩
        rw [List.length_append]
        omega
  · intro p h hp hcut
    exact truncateToLength_period_late (by omega) hp hcut

/-- **C7 (witness).** The amended theorem applied to a concrete
over-long content (150 001 letters) and to a short content. -/
theorem c7_amended_witness :
    truncateToLength "short text.".toList 150000 = "short text.".toList ∧
    ∃ body : Str,
      truncateToLength (List.replicate 150001 'b') 150000 = body ++ truncMarker ∧
      body.length ≤ 150000 ∧
      (truncateToLength (List.replicate 150001 'b') 150000).length ≤ 150024 := by
  constructor
  · exact (c7_amended "short text.".toList).1 (by decide)
  · exact (c7_amended (List.replicate 150001 'b')).2.1
      (by rw [List.length_replicate]; omega)

/-!
## C6 — depth/length relations of the extractor
-/

/-- `join` of a two-element list inserts the separator once. -/
theorem intercalate_pair (sep a b : Str) :
    List.intercalate sep [a, b] = a ++ sep ++ b := by
  simp [List.intercalate, List.intersperse]

/-- The length of a matched section span. -/
theorem sectionSpan_length (l : Str) (s h : Nat) :
    (sectionSpan l s h).length = min (stopFrom l h - s) (l.length - s) := by
  simp [sectionSpan, List.length_take, List.length_drop]

/-- When both searches succeed the section list is the two spans. -/
theorem introConclSections_both {l : Str} {si hi sc hc : Nat}
    (h1 : introFind l = some (si, hi)) (h2 : conclFind l = some (sc, hc)) :
    introConclSections l = [sectionSpan l si hi, sectionSpan l sc hc] := by
  unfold introConclSections
  rw [h1, h2]
  rfl

/-- When both searches succeed, the standard slice is the two spans
joined by the 7-character separator. -/
theorem extractIntroAndConclusion_both_len {tex : Str} {si hi sc hc : Nat}
    (h1 : introFind (cleanLatexContent tex) = some (si, hi))
    (h2 : conclFind (cleanLatexContent tex) = some (sc, hc)) :
    (extractIntroAndConclusion tex).length =
      (sectionSpan (cleanLatexContent tex) si hi).length + 7 +
      (sectionSpan (cleanLatexContent tex) sc hc).length := by
  have hb : extractIntroAndConclusion tex =
      (if (introConclSections (cleanLatexContent tex)).isEmpty then
        (cleanLatexContent tex).take (min 3000 (cleanLatexContent tex).length) ++
          "\n\n[Note: Could not find Introduction/Conclusion sections, using paper beginning]".toList
      else List.intercalate sectionSep (introConclSections (cleanLatexContent tex))) := rfl
  rw [hb, introConclSections_both h1 h2]
  rw [show ([sectionSpan (cleanLatexContent tex) si hi,
      sectionSpan (cleanLatexContent tex) sc hc] : List Str).isEmpty = false from rfl]
  rw [if_neg (by simp)]
  rw [intercalate_pair]
  simp [List.length_append, sectionSep]
  omega

/-- A document with an introduction and a conclusion section on which
the standard slice is *longer* than the full extraction. -/
def c6Doc : Str :=
  "\\section\x7bIntroduction\x7d\nA.\n\\section\x7bConclusion\x7d\nB.".toList

/-- **C6 (counterexample).** `c6Doc` contains both an introduction and a
conclusion section, yet its `standard` extraction (the two overlapping
spans joined by the 7-character separator, 56 characters) is longer than
its `full` extraction (the whole 49-character cleaned document):
`length full ≥ length standard` fails. -/
theorem c6_counterexample :
    (introFind (cleanLatexContent c6Doc)).isSome = true ∧
    (conclFind (cleanLatexContent c6Doc)).isSome = true ∧
    (extractContentByDepth c6Doc ReqDepth.standard).length = 56 ∧
    (extractContentByDepth c6Doc ReqDepth.full).length = 49 ∧
    (extractContentByDepth c6Doc ReqDepth.full).length <
      (extractContentByDepth c6Doc ReqDepth.standard).length := by
  refine ⟨rfl, rfl, rfl, rfl, by decide⟩

/-- **C6 (amended).** The `basic` extraction is always empty; and for
every document whose introduction span ends at or before the conclusion
match (the spans do not overlap), the `standard` extraction is at most
the `full` extraction plus the 7-character section separator. -/
theorem c6_amended (tex : Str) :
    extractContentByDepth tex ReqDepth.basic = [] ∧
    (∀ si hi sc hc, introFind (cleanLatexContent tex) = some (si, hi) →
      conclFind (cleanLatexContent tex) = some (sc, hc) →
      stopFrom (cleanLatexContent tex) hi ≤ sc →
      (extractContentByDepth tex ReqDepth.standard).length ≤
        (extractContentByDepth tex ReqDepth.full).length + 7) := by
  constructor
  · rfl
  · intro si hi sc hc h1 h2 hord
    have hlen := extractIntroAndConclusion_both_len h1 h2
    have e1 := sectionSpan_length (cleanLatexContent tex) si hi
    have e2 := sectionSpan_length (cleanLatexContent tex) sc hc
    show (extractIntroAndConclusion tex).length ≤ (extractMainSections tex).length + 7
    rw [hlen]
    have hfull : extractMainSections tex = cleanLatexContent tex := rfl
    rw [hfull, e1, e2]
    omega

/-- **C6 (witness).** The amended bound applied to `c6Doc`, whose spans
are adjacent and non-overlapping. -/
theorem c6_amended_witness :
    introFind (cleanLatexContent c6Doc) = some (0, 22) ∧
    conclFind (cleanLatexContent c6Doc) = some (26, 46) ∧
    stopFrom (cleanLatexContent c6Doc) 22 ≤ 26 ∧
    (extractContentByDepth c6Doc ReqDepth.standard).length ≤
      (extractContentByDepth c6Doc ReqDepth.full).length + 7 := by
  refine ⟨rfl, rfl, by decide, ?_⟩
  exact (c6_amended c6Doc).2 0 22 26 46 rfl rfl (by decide)

/-!
## C2 — standard-depth orchestration, `src/app/api/fetch-papers/route.ts`

The two-phase standard mode is modelled with the LLM scores and the
download outcome as oracle inputs; `getPaperFullTextByDepth` of
`full-text-provider.ts` threads the full-LaTeX cache explicitly and
reports whether `fetchLatexSource` was invoked.
-/

/-- The JavaScript `<` on numbers: false whenever either side is NaN. -/
def jsNumLt : JsNum → JsNum → Bool
  | .nan, _ => false
  | _, .nan => false
  | .inf true, _ => false
  | _, .inf true => true
  | _, .inf false => false
  | .inf false, _ => true
  | .fin a, .fin b => decide (a < b)

/-- The JavaScript `>=` on numbers: false whenever either side is NaN,
otherwise the negation of `<`. -/
def jsNumGe (a b : JsNum) : Bool :=
  match a, b with
  | .nan, _ => false
  | _, .nan => false
  | _, _ => !jsNumLt a b

/-- JavaScript truthiness of a number: NaN and 0 are falsy. -/
def jsNumTruthy : JsNum → Bool
  | .nan => false
  | .inf _ => true
  | .fin q => decide (q ≠ 0)

/-- The `source` discriminator of a `FullTextResult`. -/
inductive FtSource where
  | cache | latex | abstract | error
deriving DecidableEq, Repr

/-- `FullTextResult` of `full-text-provider.ts` (the `error` field is
summarised by the `error` source). -/
structure FullTextResult where
  content : Option Str
  usedFullText : Bool
  source : FtSource
  length : Nat
deriving DecidableEq, Repr

/-- `getPaperFullTextByDepth` of `full-text-provider.ts`: `basic` needs
no LaTeX; otherwise a cache hit extracts the requested depth from the
cached full LaTeX, and a cache miss downloads (`download` is the
`fetchLatexSource` outcome), extracts, and caches the raw LaTeX.
Returns the result, the new cache state, and whether `fetchLatexSource`
was invoked. -/
def getPaperFullTextByDepth (download : Option Str) (cache : Option Str)
    (depth : ReqDepth) : FullTextResult × Option Str × Bool :=
  match depth with
  | .basic => (⟨none, false, .abstract, 0⟩, cache, false)
  | d =>
    match cache with
    | some cached =>
      let extracted := extractContentByDepth cached d
      let truncated := truncateToLength extracted 150000
      (⟨some truncated, true, .cache, truncated.length⟩, cache, false)
    | none =>
      match download with
      | none => (⟨none, false, .error, 0⟩, cache, true)
      | some latexContent =>
        let extracted := extractContentByDepth latexContent d
        let truncated := truncateToLength extracted 150000
        (⟨some truncated, true, .latex, truncated.length⟩, some latexContent, true)

/-- The note appended when the phase-1 text exceeds 10 000 characters. -/
def phase1TruncNote : Str := "\n\n[Content truncated for Phase 1 scoring...]".toList

/-- The phase-1 content cut of the fetch route: contents longer than
10 000 characters are cut and annotated. -/
def phase1Slice : Option Str → Option Str
  | none => none
  | some c => if 10000 < c.length then some (c.take 10000 ++ phase1TruncNote) else some c

/-- The route's skip test `minScoreToSave && phase1Analysis.score <
minScoreToSave`. -/
def minScoreSkip (phase1Score : JsNum) (minScoreToSave : Option JsNum) : Bool :=
  match minScoreToSave with
  | some m => jsNumTruthy m && jsNumLt phase1Score m
  | none => false

/-- Observable outcome of one standard-mode run: number of
`fetchLatexSource` invocations, the content handed to the phase-1 call,
whether the paper was skipped (not persisted), whether and with what
content phase 2 fired, and the stored `analysis_type`. -/
structure StandardModeTrace where
  fetchCalls : Nat
  phase1Input : Option Str
  skippedLowScore : Bool
  phase2Fired : Bool
  phase2Input : Option Str
  actualDepth : Option ReqDepth
deriving DecidableEq, Repr

/-- The standard-mode branch of the fetch route (lines 320–391): one
`full` fetch, one `standard` fetch (served from the cache the first
fetch filled), the phase-1 cut, the minimum-score-to-save skip, and the
phase-2 decision against the detail threshold. -/
def standardModeRun (download : Option Str) (cache0 : Option Str)
    (phase1Score : JsNum) (minScoreToSave : Option JsNum)
    (minScoreThreshold : JsNum) : StandardModeTrace :=
  let r1 := getPaperFullTextByDepth download cache0 .full
  let fullTextDownloaded := r1.1
  let cache1 := r1.2.1
  let n1 : Nat := if r1.2.2 then 1 else 0
  let r2 := getPaperFullTextByDepth download cache1 .standard
  let phase1Text := r2.1
  let n2 : Nat := if r2.2.2 then 1 else 0
  let phase1Content := phase1Slice phase1Text.content
  if minScoreSkip phase1Score minScoreToSave then
    ⟨n1 + n2, phase1Content, true, false, none, none⟩
  else if jsNumGe phase1Score minScoreThreshold then
    ⟨n1 + n2, phase1Content, false, true, fullTextDownloaded.content, some .full⟩
  else
    ⟨n1 + n2, phase1Content, false, false, none, some .standard⟩

/-- With a cold cache and a successful download, the run reduces to a
three-way decision on the two score tests. -/
theorem standardModeRun_eq (latexContent : Str) (phase1Score : JsNum)
    (minScoreToSave : Option JsNum) (minScoreThreshold : JsNum) :
    standardModeRun (some latexContent) none phase1Score minScoreToSave
      minScoreThreshold =
      (if minScoreSkip phase1Score minScoreToSave then
        ⟨1, phase1Slice (some (truncateToLength
            (extractContentByDepth latexContent ReqDepth.standard) 150000)),
          true, false, none, none⟩
      else if jsNumGe phase1Score minScoreThreshold then
        ⟨1, phase1Slice (some (truncateToLength
            (extractContentByDepth latexContent ReqDepth.standard) 150000)),
          false, true,
          some (truncateToLength
            (extractContentByDepth latexContent ReqDepth.full) 150000),
          some ReqDepth.full⟩
      else
        ⟨1, phase1Slice (some (truncateToLength
            (extractContentByDepth latexContent ReqDepth.standard) 150000)),
          false, false, none, some ReqDepth.standard⟩) := rfl

/-- **C2.** Standard-depth orchestration with a cold cache and a
successful download: `fetchLatexSource` runs exactly once; the phase-1
call receives the introduction+conclusion slice of the downloaded
source (cut at 10 000 characters); when the phase-1 score trips the
minimum-to-save test the paper is skipped and nothing is stored; when
it passes and reaches the detail threshold, phase 2 fires with the
already-downloaded full text and the stored depth is `full`; otherwise
no phase 2 fires and the stored depth is `standard`. -/
theorem c2_confirmed (latexContent : Str) (phase1Score : JsNum)
    (minScoreToSave : Option JsNum) (minScoreThreshold : JsNum) :
    (standardModeRun (some latexContent) none phase1Score minScoreToSave
        minScoreThreshold).fetchCalls = 1 ∧
    (standardModeRun (some latexContent) none phase1Score minScoreToSave
        minScoreThreshold).phase1Input =
      phase1Slice (some (truncateToLength
        (extractContentByDepth latexContent ReqDepth.standard) 150000)) ∧
    (minScoreSkip phase1Score minScoreToSave = true →
      (standardModeRun (some latexContent) none phase1Score minScoreToSave
          minScoreThreshold).skippedLowScore = true ∧
      (standardModeRun (some latexContent) none phase1Score minScoreToSave
          minScoreThreshold).actualDepth = none ∧
      (standardModeRun (some latexContent) none phase1Score minScoreToSave
          minScoreThreshold).phase2Fired = false) ∧
    (minScoreSkip phase1Score minScoreToSave = false →
      jsNumGe phase1Score minScoreThreshold = true →
      (standardModeRun (some latexContent) none phase1Score minScoreToSave
          minScoreThreshold).phase2Fired = true ∧
      (standardModeRun (some latexContent) none phase1Score minScoreToSave
          minScoreThreshold).phase2Input =
        some (truncateToLength
          (extractContentByDepth latexContent ReqDepth.full) 150000) ∧
      (standardModeRun (some latexContent) none phase1Score minScoreToSave
          minScoreThreshold).actualDepth = some ReqDepth.full) ∧
    (minScoreSkip phase1Score minScoreToSave = false →
      jsNumGe phase1Score minScoreThreshold = false →
      (standardModeRun (some latexContent) none phase1Score minScoreToSave
          minScoreThreshold).phase2Fired = false ∧
      (standardModeRun (some latexContent) none phase1Score minScoreToSave
          minScoreThreshold).actualDepth = some ReqDepth.standard) := by
  refine ⟨?_, ?_, ?_, ?_, ?_⟩
  · rw [standardModeRun_eq]
    by_cases hskip : minScoreSkip phase1Score minScoreToSave = true
    · rw [if_pos hskip]
    · rw [if_neg hskip]
      by_cases hge : jsNumGe phase1Score minScoreThreshold = true
      · rw [if_pos hge]
      · rw [if_neg hge]
  · rw [standardModeRun_eq]
    by_cases hskip : minScoreSkip phase1Score minScoreToSave = true
    · rw [if_pos hskip]
    · rw [if_neg hskip]
      by_cases hge : jsNumGe phase1Score minScoreThreshold = true
      · rw [if_pos hge]
      · rw [if_neg hge]
  · intro hskip
    rw [standardModeRun_eq, if_pos hskip]
    exact ⟨rfl, rfl, rfl⟩
  · intro hskip hge
    rw [standardModeRun_eq, if_neg (by simp [hskip]), if_pos hge]
    exact ⟨rfl, rfl, rfl⟩
  · intro hskip hge
    rw [standardModeRun_eq, if_neg (by simp [hskip]), if_neg (by simp [hge])]
    exact ⟨rfl, rfl⟩

/-- A small three-section document for the C2 scenarios. -/
def c2Doc : Str :=
  "\\section\x7bIntroduction\x7d\nA.\n\\section\x7bMethod\x7d\nM.\n\\section\x7bConclusion\x7d\nB.".toList

/-- **C2 (witness).** Scenario B (phase-1 score 4, minimum-to-save 5:
the paper is skipped) and Scenario C (phase-1 score 9, detail threshold
7: phase 2 fires on the downloaded full text and the stored depth is
`full`), both on a concrete document. -/
theorem c2_confirmed_witness :
    minScoreSkip (JsNum.fin 4) (some (JsNum.fin 5)) = true ∧
    (standardModeRun (some c2Doc) none (JsNum.fin 4) (some (JsNum.fin 5))
        (JsNum.fin 7)).skippedLowScore = true ∧
    (standardModeRun (some c2Doc) none (JsNum.fin 4) (some (JsNum.fin 5))
        (JsNum.fin 7)).actualDepth = none ∧
    minScoreSkip (JsNum.fin 9) (some (JsNum.fin 5)) = false ∧
    jsNumGe (JsNum.fin 9) (JsNum.fin 7) = true ∧
    (standardModeRun (some c2Doc) none (JsNum.fin 9) (some (JsNum.fin 5))
        (JsNum.fin 7)).fetchCalls = 1 ∧
    (standardModeRun (some c2Doc) none (JsNum.fin 9) (some (JsNum.fin 5))
        (JsNum.fin 7)).phase2Fired = true ∧
    (standardModeRun (some c2Doc) none (JsNum.fin 9) (some (JsNum.fin 5))
        (JsNum.fin 7)).phase2Input =
      some (truncateToLength (extractContentByDepth c2Doc ReqDepth.full) 150000) ∧
    (standardModeRun (some c2Doc) none (JsNum.fin 9) (some (JsNum.fin 5))
        (JsNum.fin 7)).actualDepth = some ReqDepth.full := by
  refine ⟨by decide, ?_, ?_, by decide, by decide, ?_, ?_, ?_, ?_⟩
  · exact ((c2_confirmed c2Doc (JsNum.fin 4) (some (JsNum.fin 5))
      (JsNum.fin 7)).2.2.1 (by decide)).1
  · exact ((c2_confirmed c2Doc (JsNum.fin 4) (some (JsNum.fin 5))
      (JsNum.fin 7)).2.2.1 (by decide)).2.1
  · exact (c2_confirmed c2Doc (JsNum.fin 9) (some (JsNum.fin 5))
      (JsNum.fin 7)).1
  · exact ((c2_confirmed c2Doc (JsNum.fin 9) (some (JsNum.fin 5))
      (JsNum.fin 7)).2.2.2.1 (by decide) (by decide)).1
  · exact ((c2_confirmed c2Doc (JsNum.fin 9) (some (JsNum.fin 5))
      (JsNum.fin 7)).2.2.2.1 (by decide) (by decide)).2.1
  · exact ((c2_confirmed c2Doc (JsNum.fin 9) (some (JsNum.fin 5))
      (JsNum.fin 7)).2.2.2.1 (by decide) (by decide)).2.2
